import Mathlib

/-!
Verification development for the amount / quality / seed core of a Ripple
client library.  The Amount layer (`amount.js`) and the Seed layer
(`seed.js`) are translated directly from the sources; the decimal engine
(`value.js`, `iouvalue.js`, `xrpvalue.js`), the currency and fixed-width
integer types (`currency.js`, `uint160.js`, `uint.js`) and `utils.js` are
not among the sources and are modelled from the specification, as marked
on each such definition.
-/

/-- Power of ten over the rationals with an integer exponent,
written so that it evaluates without `zpow`. -/
def pow10 (z : ℤ) : ℚ :=
  if 0 ≤ z then (10 : ℚ) ^ z.toNat else ((10 : ℚ) ^ (-z).toNat)⁻¹

/-- Truncation of a rational toward zero (the `ROUND_DOWN` mode of the
underlying big-number library). -/
def truncQ (q : ℚ) : ℤ := q.num.tdiv (q.den : ℤ)

/-- Modelled from the spec: the repository's decimal engine (`value.js`,
`iouvalue.js`, `xrpvalue.js`) is not among the sources.  Per the spec it is
a signed decimal with a distinct NaN state; we model a value as a sign flag
together with a non-negative rational magnitude.  Keeping the sign separate
makes a negative zero representable, which the guard in `Amount._set_value`
shows the engine distinguishes.  The spec's 16-significant-digit truncation
of division results is abstracted to exact rational arithmetic; the claims
below do not depend on that truncation. -/
inductive Value where
  | nan : Value
  | num (neg : Bool) (mag : ℚ) : Value

/-- Build a value from a signed rational; the sign flag of a zero result is
positive. -/
def Value.ofQ (q : ℚ) : Value :=
  if q < 0 then .num true (-q) else .num false q

/-- Signed rational content of a value (`0` in the NaN state; only ever used
beneath a non-NaN test). -/
def Value.signedQ : Value → ℚ
  | .nan => 0
  | .num n m => if n then -m else m

/-- Magnitude of a value, the content of `abs()` (`0` in the NaN state). -/
def Value.magQ : Value → ℚ
  | .nan => 0
  | .num _ m => m

def Value.isNaN : Value → Bool
  | .nan => true
  | .num _ _ => false

def Value.isZero : Value → Bool
  | .nan => false
  | .num _ m => decide (m = 0)

def Value.isNegative : Value → Bool
  | .nan => false
  | .num n _ => n

/-- Negation flips the sign flag, also on a zero (as the big-number library
does, which is what makes the negative-zero guard in `_set_value` live). -/
def Value.negate : Value → Value
  | .nan => .nan
  | .num n m => .num (!n) m

def Value.abs : Value → Value
  | .nan => .nan
  | .num _ m => .num false m

/-- Modelled from the spec: addition with NaN propagation.  (The engine's
sign convention for a zero sum is the positive zero of `Value.ofQ`.) -/
def Value.add : Value → Value → Value
  | .nan, _ => .nan
  | _, .nan => .nan
  | v, w => Value.ofQ (v.signedQ + w.signedQ)

/-- Modelled from the spec: multiplication with NaN propagation; the sign of
the product is the exclusive or of the operand signs, as in the big-number
engine (so a zero product by a negative factor is a negative zero). -/
def Value.multiply : Value → Value → Value
  | .nan, _ => .nan
  | _, .nan => .nan
  | .num n m, .num n' m' => .num (xor n n') (m * m')

/-- Modelled from the spec: division; any NaN operand or a zero divisor
yields NaN. -/
def Value.divide : Value → Value → Value
  | .nan, _ => .nan
  | _, .nan => .nan
  | v, w => if w.magQ = 0 then .nan else Value.ofQ (v.signedQ / w.signedQ)

/-- Modelled from the spec: `invert(x) = 1 / x`, NaN on zero. -/
def Value.invert : Value → Value
  | .nan => .nan
  | v => if v.magQ = 0 then .nan else Value.ofQ (v.signedQ)⁻¹

/-- Modelled from the spec: `round(6, ROUND_DOWN)`, truncation toward zero
at six decimal places. -/
def Value.round6Down : Value → Value
  | .nan => .nan
  | v => Value.ofQ ((truncQ (v.signedQ * 1000000) : ℚ) / 1000000)

/-- Modelled from the spec: numeric comparison returning the sign of the
difference.  `Amount.compareTo` only reaches this with two non-NaN values;
the NaN rows are an arbitrary total completion. -/
def Value.comparedTo : Value → Value → ℤ
  | .nan, _ => 0
  | _, .nan => 0
  | v, w => if v.signedQ < w.signedQ then -1 else if w.signedQ < v.signedQ then 1 else 0

/-- Modelled from the spec: value equality; a NaN operand is equal to
nothing (big-number semantics). -/
def Value.equalsV : Value → Value → Bool
  | .nan, _ => false
  | _, .nan => false
  | v, w => decide (v.signedQ = w.signedQ)

/-- Modelled from the spec: `currency.js` is not among the sources.  A
currency carries a validity flag, the native (XRP) flag, its 160-bit code
as a number, and for interest/demurrage currencies the interest-factor
function `reference date ↦ factor`.  The real factor is an exponential of
the embedded half-life; its real-valued result is kept abstract as a
rational-valued function of the date. -/
structure Currency where
  valid : Bool
  native : Bool
  code : ℕ
  interest : Option (ℤ → ℚ)

/-- A fresh `new Currency()`, the invalid state. -/
def Currency.invalidC : Currency := ⟨false, false, 0, none⟩

/-- The native (XRP) currency sentinel, code zero. -/
def Currency.xrp : Currency := ⟨true, true, 0, none⟩

def Currency.has_interest (c : Currency) : Bool := c.valid && c.interest.isSome

def Currency.get_interest_at (c : Currency) (d : ℤ) : ℚ :=
  match c.interest with
  | some f => f d
  | none => 1

/-- Modelled from the spec: currency equality compares the 160-bit codes. -/
def Currency.equalsC (c d : Currency) : Bool := decide (c.code = d.code)

/-- `Currency.from_json` applied to an options field that may be absent:
an absent argument gives a fresh invalid currency. -/
def Currency.fromOpt : Option Currency → Currency
  | none => Currency.invalidC
  | some c => c

/-- Modelled from the spec: `uint160.js` is not among the sources; a
fixed-width unsigned integer carries a validity flag distinct from its
numeric value. -/
structure UInt160 where
  valid : Bool
  val : ℕ
deriving DecidableEq

/-- The all-zero account sentinel (`UInt160.from_json('0')`). -/
def UInt160.zero160 : UInt160 := ⟨true, 0⟩

/-- A fresh `new UInt160()`, the invalid state. -/
def UInt160.invalid160 : UInt160 := ⟨false, 0⟩

def UInt160.equalsU (a b : UInt160) : Bool := decide (a.val = b.val)

/-- Modelled from the spec: `UInt160.from_json` on the placeholder strings
used by the amount parser; the numeric stand-in for the decoded value is a
byte fold of the characters. -/
def UInt160.from_json_str (s : String) : UInt160 :=
  ⟨true, s.data.foldl (fun a c => 256 * a + c.toNat) 0⟩

/-- The Amount record of `amount.js`: a value, the native flag, a currency
and an issuer (src lines 16-26). -/
structure Amount where
  value : Value
  is_native : Bool
  currency : Currency
  issuer : UInt160

/-- A fresh `new Amount()`: value `XRPValue(NaN)`, native flag `true`,
fresh currency and issuer (src lines 16-26). -/
def Amount.new : Amount := ⟨Value.nan, true, Currency.invalidC, UInt160.invalid160⟩

def Amount.is_valid (a : Amount) : Bool := !a.value.isNaN

def Amount.is_zero (a : Amount) : Bool := a.value.isZero

def Amount.is_negative (a : Amount) : Bool := a.value.isNegative

/-- `is_comparable` (src lines 391-393): both valid and both native or both
issued. -/
def Amount.is_comparable (a b : Amount) : Bool :=
  a.is_valid && b.is_valid && (a.is_native == b.is_native)

/-- `MAX_XRP_VALUE = new XRPValue(1e11)` (src line 56), in XRP units. -/
def MAX_XRP_VALUE : ℚ := 10 ^ 11

/-- `MIN_IOU_VALUE = new IOUValue('1000000000000000e-96')` (src line 58). -/
def MIN_IOU_VALUE : ℚ := pow10 (-81)

/-- `MAX_IOU_VALUE = new IOUValue('9999999999999999e80')` (src line 57). -/
def MAX_IOU_VALUE : ℚ := 9999999999999999 * 10 ^ 80

/-- `Amount.prototype._check_limits` (src lines 323-344), with the global
`Amount.strict_mode` passed explicitly.  The source's error messages carry
the printed bound; the model keeps a fixed message per branch. -/
def Amount._check_limits (strict native : Bool) (v : Value) : Except String Unit :=
  if !strict then .ok ()
  else if v.isNaN || v.isZero then .ok ()
  else if native then
    if v.magQ > MAX_XRP_VALUE then .error "Exceeding max value" else .ok ()
  else
    if v.magQ < MIN_IOU_VALUE then .error "Exceeding min value"
    else if v.magQ > MAX_IOU_VALUE then .error "Exceeding max value"
    else .ok ()

/-- The negative-zero replacement performed at the top of `_set_value`
(src lines 111-112). -/
def negZeroFix (v : Value) : Value :=
  if v.isZero && v.isNegative then v.negate else v

/-- `Amount.prototype._set_value` (src lines 109-115): replace a negative
zero by its negation, then run the limit check. -/
def Amount._set_value (strict native : Bool) (v : Value) : Except String Value :=
  match Amount._check_limits strict native (negZeroFix v) with
  | .ok _ => .ok (negZeroFix v)
  | .error e => .error e

/-- `Amount.prototype._copy` (src lines 350-354): clone, then `_set_value`
the given value on the clone. -/
def Amount._copy (strict : Bool) (a : Amount) (v : Value) : Except String Amount :=
  match Amount._set_value strict a.is_native v with
  | .ok v' => .ok { a with value := v' }
  | .error e => .error e

/-- `Amount.prototype.negate` via `clone('NEGATE')` and `copyTo`
(src lines 346-372, 427-429): the negated value is copied directly into the
clone, without passing through `_set_value`. -/
def Amount.negate (a : Amount) : Amount := { a with value := a.value.negate }

/-- `Amount.prototype.add` (src lines 124-133).  The operand is taken as an
Amount (the source's `Amount.from_json` of an Amount copies it). -/
def Amount.add (strict : Bool) (a b : Amount) : Except String Amount :=
  if !(a.is_comparable b) then .ok Amount.new
  else Amount._copy strict a (a.value.add b.value)

/-- `Amount.prototype.subtract` (src lines 135-138): add the negation. -/
def Amount.subtract (strict : Bool) (a b : Amount) : Except String Amount :=
  Amount.add strict a b.negate

/-- `Amount.prototype.multiply` (src lines 141-147): no comparability
check, the value product is copied in directly. -/
def Amount.multiply (strict : Bool) (a b : Amount) : Except String Amount :=
  Amount._copy strict a (a.value.multiply b.value)

/-- `Amount.prototype.divide` (src lines 153-157): no comparability
check. -/
def Amount.divide (strict : Bool) (a b : Amount) : Except String Amount :=
  Amount._copy strict a (a.value.divide b.value)

/-- `Amount.prototype.compareTo` (src lines 356-362): a fresh invalid
Amount for an incomparable pair, otherwise the numeric comparison. -/
def Amount.compareTo (a b : Amount) : Sum Amount ℤ :=
  if !(a.is_comparable b) then .inl Amount.new
  else .inr (a.value.comparedTo b.value)

/-- `Amount.prototype.equals` (src lines 378-388), Amount operand branch. -/
def Amount.equals (a d : Amount) (ignore_issuer : Bool) : Bool :=
  a.is_valid && d.is_valid && (a.is_native == d.is_native)
    && a.value.equalsV d.value
    && (a.is_native
        || (a.currency.equalsC d.currency
            && (ignore_issuer || a.issuer.equalsU d.issuer)))

/-- `Amount.prototype.applyInterest` (src lines 778-785). -/
def Amount.applyInterest (strict : Bool) (a : Amount) (d : ℤ) : Except String Amount :=
  if !a.currency.has_interest then .ok a
  else Amount._copy strict a (a.value.multiply (Value.ofQ (a.currency.get_interest_at d)))

/-- JS truthiness of an optional reference date: absent or the number `0`
is falsy. -/
def truthyDate : Option ℤ → Bool
  | none => false
  | some d => decide (d ≠ 0)

/-- The message of the failed `assert(value instanceof Value)` in the
Amount constructor (src line 20): `new Amount(NaN)` passes the plain JS
number `NaN`, which is not a `Value` instance. -/
def assertionMsg : String := "AssertionError: value instanceof Value"

/-- The message of the crash at src line 214: `numerator.multiply(...)`
returns an Amount, and `_set_value` then calls `value.isZero()` on it,
which does not exist on Amount (only `is_zero` does). -/
def typeErrorMsg : String := "TypeError: value.isZero is not a function"

structure InterestOpts where
  reference_date : Option ℤ

def InterestOpts.noneOpts : InterestOpts := ⟨none⟩

/-- `Amount.prototype.ratio_human` (src lines 179-218), translated
branch by branch:
the two `return new Amount(NaN)` statements fail the constructor assertion
(the constructor requires a `Value` instance), and the native-denominator
branch passes an Amount to `_set_value`, which calls the nonexistent
`isZero` method on it.  Before that crash, `numerator.multiply(bi_xns_unit)`
itself does not throw: `Amount.from_json` of the raw `IOUValue` object finds
no `value` property and yields a fresh invalid Amount, so the product is a
NaN Amount that passes the limit check. -/
def Amount.ratio_human (strict : Bool) (a denom : Amount) (opts : InterestOpts) :
    Except String Amount :=
  if !a.is_valid || !denom.is_valid then .error assertionMsg
  else if denom.is_zero then .error assertionMsg
  else
    let denomE :=
      if truthyDate opts.reference_date then
        Amount.applyInterest strict denom (opts.reference_date.getD 0)
      else .ok denom
    match denomE with
    | .error e => .error e
    | .ok d2 =>
      if d2.is_native then .error typeErrorMsg
      else Amount.divide strict a d2

/-- Decimal digit value of a character. -/
def digitVal (c : Char) : Option ℕ :=
  if '0' ≤ c ∧ c ≤ '9' then some (c.toNat - 48) else none

/-- Hexadecimal digit value of a character. -/
def hexDigitVal (c : Char) : Option ℕ :=
  if '0' ≤ c ∧ c ≤ '9' then some (c.toNat - 48)
  else if 'a' ≤ c ∧ c ≤ 'f' then some (c.toNat - 87)
  else if 'A' ≤ c ∧ c ≤ 'F' then some (c.toNat - 55)
  else none

/-- Longest leading run of decimal digits, with the remainder. -/
def takeDigits : List Char → List ℕ × List Char
  | [] => ([], [])
  | c :: cs =>
    match digitVal c with
    | some d => let p := takeDigits cs; (d :: p.1, p.2)
    | none => ([], c :: cs)

def digitsToNat (l : List ℕ) : ℕ := l.foldl (fun a d => 10 * a + d) 0

/-- Optional exponent tail `[(e|E) [sign] digits]` of a JS numeric literal;
`some` only when the whole remainder is consumed. -/
def parseExpPart (l : List Char) : Option ℤ :=
  match l with
  | [] => some 0
  | 'e' :: rest | 'E' :: rest =>
    let (neg, r1) :=
      match rest with
      | '-' :: r => (true, r)
      | '+' :: r => (false, r)
      | r => (false, r)
    let p := takeDigits r1
    if p.1 = [] ∨ p.2 ≠ [] then none
    else some (if neg then -(digitsToNat p.1 : ℤ) else (digitsToNat p.1 : ℤ))
  | _ => none

/-- Assemble a rational from sign, integer digits, fraction digits and
exponent. -/
def mkNumQ (neg : Bool) (ip fp : List ℕ) (e : ℤ) : ℚ :=
  let base : ℚ := (digitsToNat ip : ℚ) + (digitsToNat fp : ℚ) / 10 ^ fp.length
  let v := base * pow10 e
  if neg then -v else v

/-- The syntactic decomposition of a JS decimal numeric literal: sign flag,
integer digits, fraction digits and exponent. -/
structure NumParts where
  neg : Bool
  ip : List ℕ
  fp : List ℕ
  ex : ℤ
deriving DecidableEq

/-- Syntactic part of the JS numeric-string coercion, restricted to plain
decimal literals `[sign] (digits [. digits] | . digits) [(e|E) [sign]
digits]`.  The exotic coercions (surrounding whitespace, hex `0x` forms,
`Infinity`) are outside the model. -/
def jsParseParts (l : List Char) : Option NumParts :=
  let (neg, l1) :=
    match l with
    | '-' :: r => (true, r)
    | '+' :: r => (false, r)
    | r => (false, r)
  let p := takeDigits l1
  match p.2 with
  | '.' :: r =>
    let f := takeDigits r
    if p.1 = [] ∧ f.1 = [] then none
    else (parseExpPart f.2).map (fun e => ⟨neg, p.1, f.1, e⟩)
  | r =>
    if p.1 = [] then none
    else (parseExpPart r).map (fun e => ⟨neg, p.1, [], e⟩)

def NumParts.toQ (p : NumParts) : ℚ := mkNumQ p.neg p.ip p.fp p.ex

/-- JS numeric-string coercion: `!isNaN(j)` is success of `jsParseParts`,
and the value `Number(j)` is the assembled rational. -/
def jsParseNumber (l : List Char) : Option ℚ :=
  (jsParseParts l).map NumParts.toQ

/-- `BigNumber(hex, 16)` on a bare hex string: every character must be a
hex digit and the string nonempty, otherwise NaN. -/
def parseHexAll (l : List Char) : Option ℕ :=
  if l = [] then none
  else l.foldl
    (fun acc c =>
      match acc, hexDigitVal c with
      | some a, some d => some (16 * a + d)
      | _, _ => none)
    (some 0)

/-- `parseInt(s, 16)`: value of the longest leading run of hex digits, NaN
when there is none. -/
def parseIntPrefixHex (l : List Char) : Option ℕ :=
  let ds := l.takeWhile (fun c => (hexDigitVal c).isSome)
  if ds = [] then none
  else some (ds.foldl (fun a c => 16 * a + ((hexDigitVal c).getD 0)) 0)

/-- `Amount.prototype.parse_native` (src lines 689-702) on a string input,
returning the whole resulting Amount (the native flag is `true` in both
branches: the else branch stores `IOUValue(NaN)` but leaves the
constructor's default `_is_native = true` untouched).  `XRPValue(j)` and
`divide(bi_xns_unit)` are the stored value `q / 10^6`. -/
def Amount.parse_native (strict : Bool) (l : List Char) : Except String Amount :=
  match jsParseNumber l with
  | some q =>
    if l.contains '.' then
      .error "Native amounts must be specified in integer drops"
    else
      match Amount._set_value strict true (Value.ofQ (q / 1000000)) with
      | .ok v => .ok { value := v, is_native := true,
                       currency := Currency.invalidC, issuer := UInt160.invalid160 }
      | .error e => .error e
  | none =>
    .ok { value := Value.nan, is_native := true,
          currency := Currency.invalidC, issuer := UInt160.invalid160 }

/-- `Currency.from_json` on the currency fragment of the shorthand string.
Modelled from the spec: a 3-character code is an ISO currency (the XRP code
giving the native sentinel); other forms are outside the model and give the
invalid currency.  The numeric stand-in for the code is a byte fold. -/
def Currency.from_json_str (s : String) : Currency :=
  if s = "XRP" then Currency.xrp
  else if s.data.length = 3 then
    ⟨true, false, s.data.foldl (fun a c => 256 * a + c.toNat) 0, none⟩
  else Currency.invalidC

/-- Split a list at the first occurrence of a character, `none` when the
character does not occur. -/
def splitHead (c : Char) : List Char → Option (List Char × List Char)
  | [] => none
  | x :: xs =>
    if x = c then some ([], xs)
    else (splitHead c xs).map (fun p => (x :: p.1, p.2))

/-- The shorthand regex of `parse_json` on `value/currency[/issuer]`:
nonempty value and currency fragments without slashes, an optional
nonempty issuer fragment that may contain further slashes. -/
def splitSlash (cs : List Char) : Option (List Char × List Char × Option (List Char)) :=
  match splitHead '/' cs with
  | none => none
  | some (a, rest) =>
    match splitHead '/' rest with
    | none => if a ≠ [] ∧ rest ≠ [] then some (a, rest, none) else none
    | some (b, rest2) =>
      if a ≠ [] ∧ b ≠ [] ∧ rest2 ≠ [] then some (a, b, some rest2) else none

/-- `Amount.prototype.parse_value` (src lines 706-711): an issued value
parsed with round-down, the native flag forced off. -/
def Amount.parse_value (strict : Bool) (cur : Currency) (iss : UInt160) (l : List Char) :
    Except String Amount :=
  let v := match jsParseNumber l with
    | some q => Value.ofQ q
    | none => Value.nan
  match Amount._set_value strict false v with
  | .ok v' => .ok { value := v', is_native := false, currency := cur, issuer := iss }
  | .error e => .error e

/-- The string case of `Amount.prototype.parse_json` (src lines 633-653):
the slash shorthand goes to `parse_value` with the parsed currency and
issuer (placeholder issuer `'1'` when absent); otherwise `parse_native`
followed by setting the XRP sentinel currency and the zero issuer. -/
def Amount.parse_json_string (strict : Bool) (s : String) : Except String Amount :=
  match splitSlash s.data with
  | some (v, c, iss) =>
    let cur := Currency.from_json_str (String.mk c)
    let issuer :=
      match iss with
      | some i => UInt160.from_json_str (String.mk i)
      | none => UInt160.from_json_str "1"
    Amount.parse_value strict cur issuer v
  | none =>
    match Amount.parse_native strict s.data with
    | .ok a => .ok { a with currency := Currency.xrp, issuer := UInt160.zero160 }
    | .error e => .error e

/-- `Amount.from_json` on a string input. -/
def Amount.from_json (strict : Bool) (s : String) : Except String Amount :=
  Amount.parse_json_string strict s

structure QualityOpts where
  inverse : Bool
  base_currency : Option Currency
  xrp_as_drops : Bool
  reference_date : Option ℤ

def QualityOpts.noneOpts : QualityOpts := ⟨false, none, false, none⟩

/-- `Amount.prototype.parse_quality` (src lines 555-622), translated
line by line.  The two-character offset slice and the fourteen-character
mantissa slice reproduce the clamping `substring` arithmetic; an
unparsable slice makes the assembled `IOUValue` NaN.  The counter currency
and issuer are taken already parsed (`Currency.from_json` /
`UInt160.from_json` of an already-built object return it unchanged). -/
def Amount.parse_quality (strict : Bool) (quality : String) (counterCurrency : Currency)
    (counterIssuer : UInt160) (opts : QualityOpts) : Except String Amount :=
  let cs := quality.data
  let n := cs.length
  let baseCurrency := Currency.fromOpt opts.base_currency
  let mantissa_hex := cs.drop (n - 14)
  let offset_hex := (cs.drop (n - 16)).take ((n - 14) - (n - 16))
  let mantissa : Option ℕ := parseHexAll mantissa_hex
  let offset : Option ℤ := Option.map (fun e : ℕ => (e : ℤ) - 100) (parseIntPrefixHex offset_hex)
  let isNat := counterCurrency.native
  if isNat && baseCurrency.native then .error "XRP/XRP quality is not allowed"
  else
    let value : Value :=
      match mantissa, offset with
      | some m, some o => Value.ofQ ((m : ℚ) * pow10 o)
      | _, _ => Value.nan
    let adj1 := if opts.inverse then value.invert else value
    let adj2 :=
      if !opts.xrp_as_drops then
        if isNat then adj1.divide (Value.ofQ 1000000)
        else if baseCurrency.valid && baseCurrency.native then
          adj1.multiply (Value.ofQ 1000000)
        else adj1
      else adj1
    let stored := if isNat then adj2.round6Down else adj2
    match Amount._set_value strict isNat stored with
    | .error e => .error e
    | .ok v1 =>
      if truthyDate opts.reference_date && baseCurrency.valid && baseCurrency.has_interest then
        match Amount._set_value strict isNat
            (v1.divide (Value.ofQ (baseCurrency.get_interest_at (opts.reference_date.getD 0)))) with
        | .ok v2 => .ok { value := v2, is_native := isNat,
                          currency := counterCurrency, issuer := counterIssuer }
        | .error e => .error e
      else .ok { value := v1, is_native := isNat,
                 currency := counterCurrency, issuer := counterIssuer }

/-- Little-endian decimal digits with explicit fuel (so that it computes by
structural recursion); agrees with `Nat.digits 10`. -/
def natDigitsAux : ℕ → ℕ → List ℕ
  | 0, _ => []
  | _ + 1, 0 => []
  | f + 1, n + 1 => (n + 1) % 10 :: natDigitsAux f ((n + 1) / 10)

def natDigits (n : ℕ) : List ℕ := natDigitsAux n n

/-- Big-endian decimal character string of a natural number. -/
def decChars (m : ℕ) : List Char := (natDigits m).reverse.map Nat.digitChar

/-- Modelled from the spec: `getExponent()` of the decimal engine, the
base-ten exponent of the leading digit (`value = d.ddd… × 10^e`), computed
from the reduced fraction by digit counts. -/
def qExp10 (q : ℚ) : ℤ :=
  let a := q.num.natAbs
  let b := q.den
  let da := (natDigits a).length
  let db := (natDigits b).length
  if b * 10 ^ da ≤ a * 10 ^ db then (da : ℤ) - (db : ℤ) else (da : ℤ) - (db : ℤ) - 1

/-- Modelled from the spec: `utils.getMantissa16FromString` of the missing
`utils.js` applied to the value's printed absolute value: the sixteen
decimal digits of the canonical mantissa.  Intended for values of the
canonical form `m × 10^o` with `10^15 ≤ m < 10^16`. -/
def mant16chars (q : ℚ) : List Char :=
  decChars ((|q| * pow10 (15 - qExp10 q)).num.natAbs)

def isNZdigit (c : Char) : Bool := decide ('1' ≤ c) && decide (c ≤ '9')

/-- The regex `[1-9].*$`: from the first nonzero digit to the end, `none`
when there is no nonzero digit. -/
def matchNZtoEnd : List Char → Option (List Char)
  | [] => none
  | c :: cs => if isNZdigit c then some (c :: cs) else matchNZtoEnd cs

/-- The regex `[1-9]0*$`: the last nonzero digit together with the trailing
zeros after it, `none` when the character before the trailing zeros is not
a nonzero digit. -/
def matchNZzeros (l : List Char) : Option (List Char) :=
  let r := l.reverse
  let zs := (r.takeWhile (fun c => c = '0')).length
  match r.drop zs with
  | [] => none
  | c :: _ => if isNZdigit c then some (l.drop (l.length - (zs + 1))) else none

/-- Modelled from the spec: `toString` of the decimal engine on an integral
value, as used by the native branch of `to_text` (drops are integral
there). -/
def qToIntString (q : ℚ) : String :=
  (if q.num < 0 then "-" else "") ++ Nat.repr q.num.natAbs

/-- `Amount.prototype.to_text` (src lines 734-764): `NaN` for an invalid
amount; the drops integer for a native amount; for an issued amount either
the `<mantissa>e<offset>` form or the fixed-point form assembled from the
zero-padded character window split at `offset + 43`. -/
def Amount.to_text (a : Amount) : String :=
  if !a.is_valid then "NaN"
  else if a.is_native then qToIntString (a.value.signedQ * 1000000)
  else
    let q := a.value.signedQ
    let offset : ℤ := qExp10 q - 15
    let signStr := if a.value.isNegative then "-" else ""
    let mant := mant16chars q
    if offset ≠ 0 ∧ (offset < -25 ∨ offset > -4) then
      signStr ++ String.mk mant ++ "e" ++ toString offset
    else
      let val := List.replicate 27 '0' ++ mant ++ List.replicate 23 '0'
      let pre := val.take (offset + 43).toNat
      let post := val.drop (offset + 43).toNat
      let preStr :=
        match matchNZtoEnd pre with
        | some l => String.mk l
        | none => "0"
      let postStr :=
        match matchNZzeros post with
        | some l => "." ++ String.mk (post.take (1 + post.length - l.length))
        | none => ""
      signStr ++ preStr ++ postStr

inductive KeyType where
  | secp256k1 : KeyType
  | ed25519 : KeyType
deriving DecidableEq

/-- The external codecs used by `seed.js`: the checksummed base-58 seed
codec of `ripple-address-codec` and the SHA-512 / UTF-8 primitives, kept
abstract (they are dependencies, not repository code). -/
structure SeedCodec where
  decodeSeed : String → Option (List ℕ × KeyType)
  sha512 : List ℕ → List ℕ
  utf8Bytes : String → List ℕ

/-- A Seed: the 128-bit value (`none` is the NaN state) and the key-type
tag, `secp256k1` by default (src lines 16-19). -/
structure Seed where
  value : Option ℕ
  type : KeyType
deriving DecidableEq

def Seed.is_valid (s : Seed) : Bool := s.value.isSome

/-- Big-endian byte fold, the `BN(bytes)` of `parse_bytes`. -/
def bytesToNat (l : List ℕ) : ℕ := l.foldl (fun a b => 256 * a + b) 0

def hexNatOf (l : List Char) : ℕ := l.foldl (fun a c => 16 * a + ((hexDigitVal c).getD 0)) 0

/-- `Seed.prototype.parse_base58` (src/seed lines 48-64): NaN unless the
string starts with `s`; then the external `decodeSeed`, which on success
sets both the value and the key type and on failure leaves NaN. -/
def Seed.parse_base58 (c : SeedCodec) (s : String) (st : Seed) : Seed :=
  if s.data = [] ∨ s.data.head? ≠ some 's' then { st with value := none }
  else
    match c.decodeSeed s with
    | some (bytes, t) => { value := some (bytesToNat bytes), type := t }
    | none => { st with value := none }

/-- A string of exactly `2 × width = 32` hex characters. -/
def isHex32 (l : List Char) : Bool :=
  decide (l.length = 32) && l.all (fun ch => (hexDigitVal ch).isSome)

/-- Modelled from the spec: `parse_hex` of the shared `uint.js` base class
(not among the sources): a string of exactly `2 × width = 32` hex
characters parses to the value, anything else gives NaN. -/
def Seed.parse_hex (s : String) (st : Seed) : Seed :=
  if isHex32 s.data then { st with value := some (hexNatOf s.data) }
  else { st with value := none }

/-- `Seed.prototype.parse_passphrase` (src/seed lines 71-81): the first 16
bytes of the SHA-512 of the UTF-8 bytes of the passphrase. -/
def Seed.parse_passphrase (c : SeedCodec) (s : String) (st : Seed) : Seed :=
  { st with value := some (bytesToNat ((c.sha512 (c.utf8Bytes s)).take 16)) }

/-- `Seed.prototype.parse_json` (src/seed lines 27-46): non-string or empty
input is NaN; otherwise base-58 first, then 32-character hex when still
invalid, then the passphrase fallback when still invalid and the first
character is not `s`. -/
def Seed.parse_json (c : SeedCodec) (j : Option String) : Seed :=
  match j with
  | none => { value := none, type := KeyType.secp256k1 }
  | some s =>
    if s.data = [] then { value := none, type := KeyType.secp256k1 }
    else
      let st1 := Seed.parse_base58 c s { value := none, type := KeyType.secp256k1 }
      let st2 := if st1.is_valid = false then Seed.parse_hex s st1 else st1
      let st3 :=
        if st2.is_valid = false ∧ s.data.head? ≠ some 's' then
          Seed.parse_passphrase c s st2
        else st2
      st3

def exIsOk {α : Type} : Except String α → Bool
  | .ok _ => true
  | .error _ => false

/-- A sample issued currency (the ISO code `USD`). -/
def usdCurrency : Currency := ⟨true, false, 5591876, none⟩

def issuerOne : UInt160 := ⟨true, 1⟩

/-- A valid native amount of value 5 XRP. -/
def xrpAmount5 : Amount := ⟨Value.num false 5, true, Currency.xrp, UInt160.zero160⟩

/-- A valid native amount of value 10 XRP. -/
def xrpAmount10 : Amount := ⟨Value.num false 10, true, Currency.xrp, UInt160.zero160⟩

/-- A valid issued amount of 3 USD. -/
def usdAmount3 : Amount := ⟨Value.num false 3, false, usdCurrency, issuerOne⟩

/-- A valid issued amount of 100 USD. -/
def usdAmount100 : Amount := ⟨Value.num false 100, false, usdCurrency, issuerOne⟩

/-- A valid issued zero amount. -/
def usdAmountZero : Amount := ⟨Value.num false 0, false, usdCurrency, issuerOne⟩

/-- The native product `5 × 3` that `multiply` returns on the mixed pair. -/
def mixedProduct15 : Amount := ⟨Value.num false 15, true, Currency.xrp, UInt160.zero160⟩

/-- The native zero amount as produced by `Amount.from_json('0')`. -/
def zeroNativeAmount : Amount := ⟨Value.num false 0, true, Currency.xrp, UInt160.zero160⟩

/-- A valid issued amount in canonical form `1500000000000000 × 10^5`,
whose offset 5 selects the e-notation branch of `to_text`. -/
def iouBig : Amount :=
  ⟨Value.num false (1500000000000000 * 10 ^ 5), false, usdCurrency, issuerOne⟩

/-- A valid issued amount of value one half (`5000000000000000 × 10^-16`),
whose offset −16 selects the fixed-point window branch of `to_text`. -/
def iouHalf : Amount := ⟨Value.num false (1 / 2), false, usdCurrency, issuerOne⟩

/-- The zero-padded digit window of the fixed-point branch of `to_text`. -/
def windowChars (mant : List Char) : List Char :=
  List.replicate 27 '0' ++ mant ++ List.replicate 23 '0'

/-- The integer part of the fixed-point form: the window up to position
`o + 43`, leading zeros stripped, a bare zero when nothing remains. -/
def windowPre (mant : List Char) (o : ℤ) : String :=
  let str := ((windowChars mant).take (o + 43).toNat).dropWhile (fun c => c = '0')
  if str = [] then "0" else String.mk str

/-- The fraction part of the fixed-point form: the window from position
`o + 43`, trailing zeros stripped, preceded by a point, empty when nothing
remains. -/
def windowPost (mant : List Char) (o : ℤ) : String :=
  let str := ((((windowChars mant).drop (o + 43).toNat).reverse.dropWhile
    (fun c => c = '0'))).reverse
  if str = [] then "" else "." ++ String.mk str

/-- A concrete instance of the external seed codecs, for evaluating the
seed parser at concrete inputs. -/
def sampleCodec : SeedCodec :=
  ⟨fun s => if s = "sOK" then some ([1, 2, 3], KeyType.ed25519) else none,
   fun l => 9 :: l ++ [7, 7, 7, 7, 7, 7, 7, 7, 7, 7, 7, 7, 7, 7, 7, 7, 7],
   fun s => s.data.map Char.toNat⟩

/-- The raw issued value decoded from a quality: `mantissa × 10^(eb - 100)`
for the biased exponent byte `eb`. -/
def qualityRawQ (m eb : ℕ) : ℚ := (m : ℚ) * pow10 ((eb : ℤ) - 100)

/-- The decoded value after the optional inversion (`opts.inverse`). -/
def qualityInvQ (m eb : ℕ) (opts : QualityOpts) : ℚ :=
  if opts.inverse = true then (qualityRawQ m eb)⁻¹ else qualityRawQ m eb

/-- The condition under which the drops adjustment multiplies by `10^6` for
an issued counter currency: drops mode off and a valid native base
currency. -/
def qualityUnitCond (opts : QualityOpts) : Bool :=
  !opts.xrp_as_drops && (Currency.fromOpt opts.base_currency).valid
    && (Currency.fromOpt opts.base_currency).native

/-- The decoded value after the drops adjustment. -/
def qualityUnitQ (m eb : ℕ) (opts : QualityOpts) : ℚ :=
  if qualityUnitCond opts = true then qualityInvQ m eb opts * 1000000
  else qualityInvQ m eb opts

/-- The condition for the final interest division: a truthy reference date
and a valid interest-bearing base currency. -/
def qualityInterestCond (opts : QualityOpts) : Bool :=
  truthyDate opts.reference_date && (Currency.fromOpt opts.base_currency).valid
    && (Currency.fromOpt opts.base_currency).has_interest

/-- The decoded value after the final interest division. -/
def qualityFinalQ (m eb : ℕ) (opts : QualityOpts) : ℚ :=
  if qualityInterestCond opts = true then
    qualityUnitQ m eb opts /
      (Currency.fromOpt opts.base_currency).get_interest_at (opts.reference_date.getD 0)
  else qualityUnitQ m eb opts

/-- C9: an invalid Amount compares unequal to every operand, itself
included: `equals` requires both operands to be valid before it looks at
the native flag, value, currency or issuer, so equality is not reflexive
on invalid amounts. -/
theorem c9_invalid_equals_nothing (a d : Amount) (ign : Bool)
    (h : a.is_valid = false) :
    Amount.equals a d ign = false ∧ Amount.equals a a ign = false := by
  constructor <;> simp [Amount.equals, h]

theorem c9_invalid_equals_nothing_witness :
    Amount.new.is_valid = false ∧
    Amount.equals Amount.new Amount.new false = false :=
  ⟨rfl, (c9_invalid_equals_nothing Amount.new Amount.new false rfl).2⟩

/-- C10 (amended): every value stored through `_set_value` satisfies the
invariant: a stored zero is never negative, because `_set_value` replaces a
negative zero by its negation before storing.  (The unamended claim fails
for `negate`, `clone` and `copyTo`, which copy the raw value without
`_set_value`; see the counterexample.) -/
theorem c10_set_value_zero_never_negative (strict native : Bool) (v v' : Value)
    (h : Amount._set_value strict native v = .ok v') (hz : v'.isZero = true) :
    v'.isNegative = false := by
  have hfix : v' = negZeroFix v := by
    unfold Amount._set_value at h
    cases hc : Amount._check_limits strict native (negZeroFix v) with
    | ok u => rw [hc] at h; exact (Except.ok.inj h).symm
    | error e => rw [hc] at h; cases h
  subst hfix
  unfold negZeroFix at hz ⊢
  cases v with
  | nan => simp [Value.isZero, Value.isNegative, Value.negate] at hz ⊢
  | num n m =>
    cases n with
    | false => simp [Value.isZero, Value.isNegative, Value.negate]
    | true =>
      by_cases hm : m = 0
      · simp [Value.isZero, Value.isNegative, Value.negate, hm]
      · simp [Value.isZero, Value.isNegative, Value.negate, hm] at hz ⊢

theorem c10_set_value_zero_never_negative_witness :
    Value.isNegative (Value.num false 0) = false :=
  c10_set_value_zero_never_negative true true (Value.num true 0) (Value.num false 0)
    (by rfl) (by rfl)

/-- C10 counterexample: the subtraction `5 XRP − 5 XRP` produces a zero
Amount through a constructor path, and the arithmetic operation `negate`
(which copies the raw value via `copyTo` without `_set_value`) turns it
into an Amount that is both zero and negative, refuting the claimed
invariant for every Amount produced by an arithmetic operation. -/
theorem c10_counterexample :
    Amount.subtract true xrpAmount5 xrpAmount5 = .ok zeroNativeAmount ∧
    zeroNativeAmount.negate.is_zero = true ∧
    zeroNativeAmount.negate.is_negative = true := by
  refine ⟨?_, by rfl, by rfl⟩
  norm_num [Amount.subtract, Amount.add, Amount.negate, Amount.is_comparable,
    Amount.is_valid, Amount._copy, Amount._set_value, Amount._check_limits,
    negZeroFix, Value.add, Value.negate, Value.ofQ, Value.signedQ, Value.isZero,
    Value.isNegative, Value.isNaN, xrpAmount5, zeroNativeAmount]

/-- The negative-zero fix does not change the outcome of the limit
check. -/
theorem check_limits_negZeroFix (strict native : Bool) (v : Value) :
    Amount._check_limits strict native (negZeroFix v) =
      Amount._check_limits strict native v := by
  unfold negZeroFix
  cases hz : v.isZero && v.isNegative
  · simp
  · cases v with
    | nan => simp [Value.isZero, Value.isNegative] at hz
    | num n m =>
      simp only [Bool.and_eq_true, Value.isZero, Value.isNegative, decide_eq_true_eq] at hz
      unfold Amount._check_limits
      simp [Value.negate, Value.isNaN, Value.isZero, hz.1]

/-- C3: with strict mode off the limit check always passes; with strict
mode on it fails exactly for a non-NaN, non-zero value whose magnitude
exceeds `10^11` (native) or lies below `10^-81` or above
`(10^16 − 1) × 10^80` (issued); and `_set_value`, which runs after every
value mutation, succeeds exactly when the limit check does. -/
theorem c3_strict_mode_range_check (native : Bool) (v : Value) :
    (Amount._check_limits false native v = .ok ()) ∧
    ((exIsOk (Amount._check_limits true native v) = false) ↔
      (v.isNaN = false ∧ v.isZero = false ∧
        ((native = true ∧ v.magQ > MAX_XRP_VALUE) ∨
         (native = false ∧ (v.magQ < MIN_IOU_VALUE ∨ v.magQ > MAX_IOU_VALUE))))) ∧
    (∀ strict : Bool,
      exIsOk (Amount._set_value strict native v) =
        exIsOk (Amount._check_limits strict native v)) := by
  refine ⟨rfl, ?_, ?_⟩
  · unfold Amount._check_limits exIsOk
    cases hnan : v.isNaN with
    | true => simp [hnan]
    | false =>
      cases hzero : v.isZero with
      | true => simp [hnan, hzero]
      | false =>
        cases native with
        | true =>
          by_cases hgt : v.magQ > MAX_XRP_VALUE
          · simp [hnan, hzero, hgt]
          · simp [hnan, hzero, hgt]
        | false =>
          by_cases hlt : v.magQ < MIN_IOU_VALUE
          · simp [hnan, hzero, hlt]
          · by_cases hgt : v.magQ > MAX_IOU_VALUE
            · simp [hnan, hzero, hlt, hgt]
            · simp [hnan, hzero, hlt, hgt]
  · intro strict
    unfold Amount._set_value
    rw [check_limits_negZeroFix]
    cases Amount._check_limits strict native v with
    | ok u => rfl
    | error e => rfl

/-- Negation preserves validity and the native flag, hence
comparability. -/
theorem is_comparable_negate (a b : Amount) :
    a.is_comparable b.negate = a.is_comparable b := by
  cases h : b.value <;>
    simp [Amount.is_comparable, Amount.negate, Amount.is_valid, Value.negate,
      Value.isNaN, h]

/-- C1 (amended): `add`, `subtract` and `compareTo` return the fresh
invalid Amount, without throwing, for every incomparable pair (native
versus issued, or an invalid operand); `multiply` and `divide` propagate an
invalid (NaN) operand to an invalid result without throwing; but they do
not check comparability, so a valid native by valid issued product or
quotient is a numeric result (see the counterexample). -/
theorem c1_incomparable_and_invalid_operands (strict : Bool) (a b : Amount) :
    (a.is_comparable b = false →
      Amount.add strict a b = .ok Amount.new ∧
      Amount.subtract strict a b = .ok Amount.new ∧
      Amount.compareTo a b = .inl Amount.new ∧
      Amount.new.is_valid = false) ∧
    ((a.is_valid = false ∨ b.is_valid = false) →
      Amount.multiply strict a b = .ok { a with value := Value.nan } ∧
      Amount.divide strict a b = .ok { a with value := Value.nan } ∧
      Amount.is_valid { a with value := Value.nan } = false) := by
  constructor
  · intro h
    refine ⟨?_, ?_, ?_, rfl⟩
    · unfold Amount.add
      rw [h]
      rfl
    · unfold Amount.subtract Amount.add
      rw [is_comparable_negate, h]
      rfl
    · unfold Amount.compareTo
      rw [h]
      rfl
  · intro h
    have hnan : a.value.multiply b.value = Value.nan ∧ a.value.divide b.value = Value.nan := by
      rcases h with h | h
      · have hv : a.value = Value.nan := by
          cases hv : a.value
          · rfl
          · rw [Amount.is_valid, hv] at h
            simp [Value.isNaN] at h
        rw [hv]
        constructor
        · cases b.value <;> rfl
        · cases b.value <;> rfl
      · have hv : b.value = Value.nan := by
          cases hv : b.value
          · rfl
          · rw [Amount.is_valid, hv] at h
            simp [Value.isNaN] at h
        rw [hv]
        constructor
        · cases a.value <;> rfl
        · cases a.value <;> rfl
    refine ⟨?_, ?_, rfl⟩
    · unfold Amount.multiply Amount._copy Amount._set_value
      rw [hnan.1]
      cases strict <;> rfl
    · unfold Amount.divide Amount._copy Amount._set_value
      rw [hnan.2]
      cases strict <;> rfl

theorem c1_incomparable_and_invalid_operands_witness :
    Amount.add true xrpAmount5 usdAmount3 = .ok Amount.new ∧
    Amount.multiply true Amount.new usdAmount3 = .ok { Amount.new with value := Value.nan } :=
  ⟨((c1_incomparable_and_invalid_operands true xrpAmount5 usdAmount3).1 rfl).1,
   ((c1_incomparable_and_invalid_operands true Amount.new usdAmount3).2 (Or.inl rfl)).1⟩

/-- C1 counterexample: `multiply` on a valid native and a valid issued
operand — an incomparable pair — returns a valid numeric Amount, not an
invalid one: the comparability check is absent from `multiply` (and
`divide`), refuting the claim for those operations. -/
theorem c1_counterexample :
    xrpAmount5.is_comparable usdAmount3 = false ∧
    Amount.multiply true xrpAmount5 usdAmount3 = .ok mixedProduct15 ∧
    mixedProduct15.is_valid = true := by
  refine ⟨rfl, ?_, rfl⟩
  norm_num [Amount.multiply, Amount._copy, Amount._set_value, Amount._check_limits,
    negZeroFix, Value.multiply, Value.isZero, Value.isNegative, Value.isNaN, Value.magQ,
    xrpAmount5, usdAmount3, mixedProduct15, MAX_XRP_VALUE]

/-- C4: the claim describes the intended behavior (also stated in the
source's own comments), but the code crashes instead.  With an invalid
operand or a zero denominator, `return new Amount(NaN)` fails the
constructor assertion `value instanceof Value` (the JS number NaN is not a
Value).  With a valid native denominator, the drops compensation
`numerator._set_value(numerator.multiply(bi_xns_unit))` passes an Amount to
`_set_value`, which calls the nonexistent `isZero` method on it and throws
a TypeError — so the documented `ratio_human` result is unreachable for
native denominators. -/
theorem c4_ratio_human_crashes :
    Amount.ratio_human true usdAmount100 xrpAmount10 InterestOpts.noneOpts
      = .error typeErrorMsg ∧
    Amount.ratio_human true usdAmount100 usdAmountZero InterestOpts.noneOpts
      = .error assertionMsg ∧
    Amount.ratio_human true Amount.new usdAmount3 InterestOpts.noneOpts
      = .error assertionMsg := by
  exact ⟨rfl, rfl, rfl⟩

theorem signedQ_ofQ (x : ℚ) : (Value.ofQ x).signedQ = x := by
  unfold Value.ofQ Value.signedQ
  split_ifs <;> simp

theorem magQ_ofQ (x : ℚ) : (Value.ofQ x).magQ = |x| := by
  unfold Value.ofQ Value.magQ
  split_ifs with h
  · simp [abs_of_neg h]
  · simp [abs_of_nonneg (le_of_not_lt h)]

theorem isNaN_ofQ (x : ℚ) : (Value.ofQ x).isNaN = false := by
  unfold Value.ofQ Value.isNaN
  split_ifs <;> rfl

theorem negZeroFix_ofQ (x : ℚ) : negZeroFix (Value.ofQ x) = Value.ofQ x := by
  have hguard : ((Value.ofQ x).isZero && (Value.ofQ x).isNegative) = false := by
    unfold Value.ofQ
    split_ifs with h
    · have hx : ¬(-x = 0) := fun h0 => absurd (neg_eq_zero.mp h0) (ne_of_lt h)
      simp [Value.isZero, Value.isNegative, hx]
    · simp [Value.isZero, Value.isNegative]
  unfold negZeroFix
  rw [hguard]
  simp

/-- When the limit check passes, `_set_value` stores the negative-zero-fixed
value. -/
theorem set_value_eq_of_check (strict native : Bool) (v : Value)
    (h : exIsOk (Amount._check_limits strict native v) = true) :
    Amount._set_value strict native v = .ok (negZeroFix v) := by
  unfold Amount._set_value
  rw [check_limits_negZeroFix]
  cases hc : Amount._check_limits strict native v with
  | ok u => rfl
  | error e => rw [hc] at h; simp [exIsOk] at h

/-- The native limit check passes on any value of magnitude at most the
XRP maximum. -/
theorem check_native_ok_of_le (strict : Bool) (x : ℚ) (hx : |x| ≤ MAX_XRP_VALUE) :
    exIsOk (Amount._check_limits strict true (Value.ofQ x)) = true := by
  unfold Amount._check_limits
  cases strict
  · rfl
  · rw [isNaN_ofQ]
    cases hz : (Value.ofQ x).isZero with
    | true => simp [hz, exIsOk]
    | false =>
      have hng : ¬((Value.ofQ x).magQ > MAX_XRP_VALUE) := by
        rw [magQ_ofQ]
        exact not_lt.mpr hx
      simp [hz, hng, exIsOk]

theorem splitHead_none_of_not_contains (c : Char) (l : List Char)
    (h : l.contains c = false) : splitHead c l = none := by
  induction l with
  | nil => rfl
  | cons x xs ih =>
    simp only [List.contains_cons, Bool.or_eq_false_iff] at h
    unfold splitHead
    rw [if_neg (fun he => by simp [he] at h), ih h.2]
    rfl

theorem splitSlash_none_of_not_contains (l : List Char)
    (h : l.contains '/' = false) : splitSlash l = none := by
  unfold splitSlash
  rw [splitHead_none_of_not_contains '/' l h]

/-- Evaluation of `from_json` on a numeric slash-free string: the decimal
point check, then the drops store. -/
theorem from_json_native_eval (strict : Bool) (s : String) (q : ℚ)
    (hnum : jsParseNumber s.data = some q)
    (hslash : s.data.contains '/' = false) :
    Amount.from_json strict s =
      (if s.data.contains '.' = true then
        .error "Native amounts must be specified in integer drops"
      else
        match Amount._set_value strict true (Value.ofQ (q / 1000000)) with
        | .ok v => .ok ⟨v, true, Currency.xrp, UInt160.zero160⟩
        | .error e => .error e) := by
  unfold Amount.from_json Amount.parse_json_string
  rw [splitSlash_none_of_not_contains s.data hslash]
  unfold Amount.parse_native
  rw [hnum]
  cases hdot : s.data.contains '.' with
  | true => simp [hdot]
  | false =>
    simp only [hdot, Bool.false_eq_true, if_false]
    cases hsv : Amount._set_value strict true (Value.ofQ (q / 1000000)) with
    | ok v => simp [hsv]
    | error e => simp [hsv]

/-- C5 (amended): a numeric slash-free string with a decimal point makes
`from_json` throw the integer-drops error; without a decimal point it
parses to a valid native Amount storing `q` drops (internally `q / 10^6`
XRP units), provided in strict mode that the magnitude does not exceed
`10^17` drops (`10^11` XRP) — beyond that the strict range check throws,
see the counterexample. -/
theorem c5_from_json_numeric_strings (s : String) (q : ℚ)
    (hnum : jsParseNumber s.data = some q)
    (hslash : s.data.contains '/' = false) :
    (s.data.contains '.' = true →
      Amount.from_json true s = .error "Native amounts must be specified in integer drops") ∧
    (s.data.contains '.' = false → |q| ≤ 10 ^ 17 →
      Amount.from_json true s =
        .ok ⟨Value.ofQ (q / 1000000), true, Currency.xrp, UInt160.zero160⟩ ∧
      Amount.is_valid ⟨Value.ofQ (q / 1000000), true, Currency.xrp, UInt160.zero160⟩ = true) := by
  constructor
  · intro hdot
    rw [from_json_native_eval true s q hnum hslash, if_pos hdot]
  · intro hdot hle
    have hchk : exIsOk (Amount._check_limits true true (Value.ofQ (q / 1000000))) = true := by
      apply check_native_ok_of_le
      rw [abs_div, show |(1000000 : ℚ)| = 1000000 by norm_num, div_le_iff₀ (by norm_num)]
      calc |q| ≤ 10 ^ 17 := hle
        _ = MAX_XRP_VALUE * 1000000 := by norm_num [MAX_XRP_VALUE]
    constructor
    · rw [from_json_native_eval true s q hnum hslash,
        if_neg (by rw [hdot]; exact Bool.false_ne_true),
        set_value_eq_of_check true true _ hchk, negZeroFix_ofQ]
    · rw [Amount.is_valid, isNaN_ofQ]
      rfl

theorem c5_from_json_numeric_strings_witness :
    Amount.from_json true "25" =
      .ok ⟨Value.ofQ ((25 : ℚ) / 1000000), true, Currency.xrp, UInt160.zero160⟩ ∧
    Amount.from_json true "1.5" = .error "Native amounts must be specified in integer drops" := by
  have h25 : jsParseNumber ("25".data) = some 25 := by
    have hp : jsParseParts ("25".data) = some ⟨false, [2, 5], [], 0⟩ := by decide
    rw [jsParseNumber, hp]
    norm_num [NumParts.toQ, mkNumQ, digitsToNat, List.foldl, pow10]
  have h15 : jsParseNumber ("1.5".data) = some (3 / 2) := by
    have hp : jsParseParts ("1.5".data) = some ⟨false, [1], [5], 0⟩ := by decide
    rw [jsParseNumber, hp]
    norm_num [NumParts.toQ, mkNumQ, digitsToNat, List.foldl, pow10]
  constructor
  · exact (((c5_from_json_numeric_strings "25" 25 h25 (by decide)).2 (by decide)) (by norm_num)).1
  · exact (c5_from_json_numeric_strings "1.5" (3 / 2) h15 (by decide)).1 (by decide)

/-- C5 counterexample: the plain integer string of `2 × 10^17` drops
(`2 × 10^11` XRP) is numeric and slash-free, yet `from_json` throws the
strict-mode range error instead of returning a valid native Amount. -/
theorem c5_counterexample :
    Amount.from_json true "200000000000000000" = .error "Exceeding max value" := by
  have hnum : jsParseNumber ("200000000000000000".data) = some 200000000000000000 := by
    have hp : jsParseParts ("200000000000000000".data) =
        some ⟨false, [2, 0, 0, 0, 0, 0, 0, 0, 0, 0, 0, 0, 0, 0, 0, 0, 0, 0], [], 0⟩ := by
      decide
    rw [jsParseNumber, hp]
    norm_num [NumParts.toQ, mkNumQ, digitsToNat, List.foldl, pow10]
  have hsv : Amount._set_value true true (Value.ofQ ((200000000000000000 : ℚ) / 1000000)) =
      .error "Exceeding max value" := by
    have hpos : ¬((200000000000000000 : ℚ) / 1000000 < 0) := by norm_num
    have hofq : Value.ofQ ((200000000000000000 : ℚ) / 1000000) =
        Value.num false (200000000000000000 / 1000000) := by
      unfold Value.ofQ
      rw [if_neg hpos]
    unfold Amount._set_value
    rw [negZeroFix_ofQ, hofq]
    unfold Amount._check_limits
    have h1 : (Value.num false ((200000000000000000 : ℚ) / 1000000)).isNaN = false := rfl
    have h2 : (Value.num false ((200000000000000000 : ℚ) / 1000000)).isZero = false := by
      unfold Value.isZero
      norm_num
    have h3 : (Value.num false ((200000000000000000 : ℚ) / 1000000)).magQ > MAX_XRP_VALUE := by
      unfold Value.magQ MAX_XRP_VALUE
      norm_num
    simp [h1, h2, h3]
  rw [from_json_native_eval true _ _ hnum (by decide), if_neg (by decide), hsv]

theorem isHex32_false_of_head_s (l : List Char) (h : l.head? = some 's') :
    isHex32 l = false := by
  cases l with
  | nil => simp at h
  | cons x xs =>
    have hx : x = 's' := by simpa using h
    subst hx
    unfold isHex32
    simp [List.all_cons, show (hexDigitVal 's').isSome = false from rfl]

/-- C8: resolution order of `Seed.from_json`.  Non-string or empty input is
invalid; a string starting with the seed version character `s` is decoded
by the checksummed base-58 codec, on success setting value and key type and
on failure leaving the seed invalid (such a string can never pass the hex
parse, and the passphrase fallback is skipped for it); any other nonempty
string is tried as 32-character hex, and otherwise becomes a passphrase
seed, the first 16 bytes of the SHA-512 of its UTF-8 bytes. -/
theorem c8_seed_resolution_order (c : SeedCodec) :
    (Seed.parse_json c none = ⟨none, KeyType.secp256k1⟩ ∧
     Seed.parse_json c (some "") = ⟨none, KeyType.secp256k1⟩) ∧
    (∀ s : String, s.data ≠ [] → s.data.head? = some 's' →
      (∀ bytes t, c.decodeSeed s = some (bytes, t) →
        Seed.parse_json c (some s) = ⟨some (bytesToNat bytes), t⟩) ∧
      (c.decodeSeed s = none →
        Seed.parse_json c (some s) = ⟨none, KeyType.secp256k1⟩)) ∧
    (∀ s : String, s.data ≠ [] → s.data.head? ≠ some 's' →
      (isHex32 s.data = true →
        Seed.parse_json c (some s) = ⟨some (hexNatOf s.data), KeyType.secp256k1⟩) ∧
      (isHex32 s.data = false →
        Seed.parse_json c (some s) =
          ⟨some (bytesToNat ((c.sha512 (c.utf8Bytes s)).take 16)), KeyType.secp256k1⟩)) := by
  refine ⟨⟨rfl, rfl⟩, ?_, ?_⟩
  · intro s hne hhead
    have hb58cond : ¬(s.data = [] ∨ s.data.head? ≠ some 's') := by
      rintro (h | h)
      · exact hne h
      · exact h hhead
    constructor
    · intro bytes t hdec
      simp only [Seed.parse_json]
      rw [if_neg hne]
      unfold Seed.parse_base58
      rw [if_neg hb58cond, hdec]
      simp [Seed.is_valid]
    · intro hdec
      simp only [Seed.parse_json]
      rw [if_neg hne]
      unfold Seed.parse_base58
      rw [if_neg hb58cond, hdec]
      unfold Seed.parse_hex
      rw [isHex32_false_of_head_s s.data hhead]
      simp only [Bool.false_eq_true, if_false]
      have : ¬(Seed.is_valid ⟨none, KeyType.secp256k1⟩ = false ∧ s.data.head? ≠ some 's') := by
        rintro ⟨-, h⟩
        exact h hhead
      simp [Seed.is_valid, hhead]
  · intro s hne hhead
    have hb58cond : s.data = [] ∨ s.data.head? ≠ some 's' := Or.inr hhead
    constructor
    · intro hhex
      simp only [Seed.parse_json]
      rw [if_neg hne]
      unfold Seed.parse_base58
      rw [if_pos hb58cond]
      unfold Seed.parse_hex
      rw [hhex]
      simp [Seed.is_valid]
    · intro hhex
      simp only [Seed.parse_json]
      rw [if_neg hne]
      unfold Seed.parse_base58
      rw [if_pos hb58cond]
      unfold Seed.parse_hex
      rw [hhex]
      simp only [Bool.false_eq_true, if_false]
      rw [if_pos ⟨rfl, hhead⟩]
      rfl

theorem c8_seed_resolution_order_witness :
    Seed.parse_json sampleCodec (some "sOK") = ⟨some (bytesToNat [1, 2, 3]), KeyType.ed25519⟩ ∧
    Seed.parse_json sampleCodec (some "sBAD") = ⟨none, KeyType.secp256k1⟩ ∧
    Seed.parse_json sampleCodec (some "00112233445566778899aabbccddeeff") =
      ⟨some (hexNatOf ("00112233445566778899aabbccddeeff".data)), KeyType.secp256k1⟩ ∧
    Seed.parse_json sampleCodec (some "hello") =
      ⟨some (bytesToNat ((sampleCodec.sha512 (sampleCodec.utf8Bytes "hello")).take 16)),
       KeyType.secp256k1⟩ ∧
    Seed.parse_json sampleCodec none = ⟨none, KeyType.secp256k1⟩ := by
  refine ⟨?_, ?_, ?_, ?_, ((c8_seed_resolution_order sampleCodec).1).1⟩
  · exact (((c8_seed_resolution_order sampleCodec).2.1 "sOK" (by decide) (by decide)).1
      [1, 2, 3] KeyType.ed25519 (by decide))
  · exact ((c8_seed_resolution_order sampleCodec).2.1 "sBAD" (by decide) (by decide)).2 (by decide)
  · exact ((c8_seed_resolution_order sampleCodec).2.2 "00112233445566778899aabbccddeeff"
      (by decide) (by decide)).1 (by decide)
  · exact ((c8_seed_resolution_order sampleCodec).2.2 "hello" (by decide) (by decide)).2 (by decide)

theorem check_limits_error_messages (strict native : Bool) (v : Value) (e : String)
    (h : Amount._check_limits strict native v = .error e) :
    e = "Exceeding max value" ∨ e = "Exceeding min value" := by
  unfold Amount._check_limits at h
  split_ifs at h <;> simp_all

theorem set_value_error_messages (strict native : Bool) (v : Value) (e : String)
    (h : Amount._set_value strict native v = .error e) :
    e = "Exceeding max value" ∨ e = "Exceeding min value" := by
  unfold Amount._set_value at h
  cases hc : Amount._check_limits strict native (negZeroFix v) with
  | ok u => rw [hc] at h; simp at h
  | error e2 =>
    rw [hc] at h
    have he : e2 = e := by simpa using h
    subst he
    exact check_limits_error_messages strict native (negZeroFix v) e2 hc

/-- C6 (amended): `parse_quality` throws the XRP/XRP error exactly when
both the counter currency and the base currency are native; but this is
not its only throw: in strict mode the range check that follows can throw
on out-of-range decoded values (see the counterexample), so "throws an
error" is not equivalent to the XRP/XRP condition. -/
theorem c6_parse_quality_xrpxrp_error_iff (strict : Bool) (q : String) (c : Currency)
    (i : UInt160) (opts : QualityOpts) :
    (Amount.parse_quality strict q c i opts = .error "XRP/XRP quality is not allowed") ↔
      (c.native = true ∧ (Currency.fromOpt opts.base_currency).native = true) := by
  constructor
  · intro h
    by_cases hc : (c.native && (Currency.fromOpt opts.base_currency).native) = true
    · simpa using hc
    · exfalso
      simp only [Amount.parse_quality] at h
      rw [Bool.not_eq_true] at hc
      rw [hc] at h
      simp only [Bool.false_eq_true, if_false] at h
      split at h
      · rename_i e2 heq
        rcases set_value_error_messages _ _ _ _ heq with hm | hm <;>
          (rw [hm] at h; exact absurd (Except.error.inj h) (by decide))
      · rename_i v1 heq
        split at h
        · split at h
          · rename_i v2 heq2
            simp at h
          · rename_i e2 heq2
            rcases set_value_error_messages _ _ _ _ heq2 with hm | hm <;>
              (rw [hm] at h; exact absurd (Except.error.inj h) (by decide))
        · simp at h
  · rintro ⟨h1, h2⟩
    simp only [Amount.parse_quality]
    rw [show (c.native && (Currency.fromOpt opts.base_currency).native) = true by
      rw [h1, h2]; rfl]
    rfl

/-- C6 counterexample: a quality whose decoded value is `10^155` with an
issued (non-native) counter currency and no base currency still throws —
the strict-mode range check fires — although the counter/base pair is not
XRP/XRP, refuting "throws exactly when both are native". -/
theorem c6_counterexample :
    usdCurrency.native = false ∧ Currency.invalidC.native = false ∧
    Amount.parse_quality true "FF00000000000001" usdCurrency issuerOne QualityOpts.noneOpts =
      .error "Exceeding max value" := by
  refine ⟨rfl, rfl, ?_⟩
  have hm : parseHexAll
      (("FF00000000000001".data).drop (("FF00000000000001".data).length - 14)) = some 1 := by
    decide
  have ho : parseIntPrefixHex
      ((("FF00000000000001".data).drop (("FF00000000000001".data).length - 16)).take
        ((("FF00000000000001".data).length - 14) - (("FF00000000000001".data).length - 16)))
      = some 255 := by
    decide
  have hpow : (1 : ℚ) * pow10 (155 : ℤ) = 10 ^ (155 : ℕ) := by
    unfold pow10
    rw [if_pos (by norm_num), show ((155 : ℤ).toNat) = (155 : ℕ) from rfl, one_mul]
  have hofq : Value.ofQ ((1 : ℚ) * pow10 (155 : ℤ)) = Value.num false (10 ^ (155 : ℕ)) := by
    unfold Value.ofQ
    rw [hpow, if_neg (not_lt.mpr (by positivity))]
  have hsv : Amount._set_value true false (Value.num false ((10 : ℚ) ^ (155 : ℕ))) =
      .error "Exceeding max value" := by
    have hfix : negZeroFix (Value.num false ((10 : ℚ) ^ (155 : ℕ))) =
        Value.num false ((10 : ℚ) ^ (155 : ℕ)) := by
      unfold negZeroFix
      simp [Value.isZero, Value.isNegative]
    unfold Amount._set_value
    rw [hfix]
    unfold Amount._check_limits
    have h1 : (Value.num false ((10 : ℚ) ^ (155 : ℕ))).isNaN = false := rfl
    have h2 : (Value.num false ((10 : ℚ) ^ (155 : ℕ))).isZero = false := by
      unfold Value.isZero
      simp only [decide_eq_false_iff_not]
      positivity
    have hmin : MIN_IOU_VALUE = ((10 : ℚ) ^ (81 : ℕ))⁻¹ := by
      unfold MIN_IOU_VALUE pow10
      rw [if_neg (by norm_num), show ((-(-81 : ℤ)).toNat) = (81 : ℕ) from rfl]
    have h3 : ¬((Value.num false ((10 : ℚ) ^ (155 : ℕ))).magQ < MIN_IOU_VALUE) := by
      unfold Value.magQ
      rw [hmin]
      apply not_lt.mpr
      calc ((10 : ℚ) ^ (81 : ℕ))⁻¹ ≤ 1 := by
            rw [inv_le_one₀ (by positivity)]
            exact one_le_pow₀ (by norm_num)
        _ ≤ 10 ^ (155 : ℕ) := one_le_pow₀ (by norm_num)
    have h4 : (Value.num false ((10 : ℚ) ^ (155 : ℕ))).magQ > MAX_IOU_VALUE := by
      unfold Value.magQ MAX_IOU_VALUE
      calc (9999999999999999 : ℚ) * 10 ^ 80 < 10 ^ 16 * 10 ^ 80 := by norm_num
        _ = 10 ^ 96 := by rw [← pow_add]
        _ < 10 ^ 155 := by
          apply pow_lt_pow_right₀ (by norm_num)
          norm_num
    simp [h1, h2, h3, h4]
  simp only [Amount.parse_quality, hm, ho, Option.map_some', Nat.cast_one, Nat.cast_ofNat,
    ite_self,
    QualityOpts.noneOpts, Currency.fromOpt, usdCurrency, Currency.invalidC, truthyDate,
    Bool.and_false, Bool.false_and, Bool.false_eq_true, if_false, Bool.not_false,
    Bool.and_self]
  rw [show ((255 : ℤ) - 100) = 155 by norm_num]
  simp only [hofq, hsv]


theorem pow10_pos (z : ℤ) : 0 < pow10 z := by
  unfold pow10
  split_ifs <;> positivity

theorem invert_eval (v : Value) (hv : v.isNaN = false) :
    v.invert = if v.magQ = 0 then Value.nan else Value.ofQ (v.signedQ)⁻¹ := by
  cases v with
  | nan => simp [Value.isNaN] at hv
  | num n m => rfl

theorem invert_ofQ (x : ℚ) (hx : x ≠ 0) : (Value.ofQ x).invert = Value.ofQ x⁻¹ := by
  rw [invert_eval _ (isNaN_ofQ x), magQ_ofQ, signedQ_ofQ, if_neg (abs_ne_zero.mpr hx)]

theorem divide_eval (v w : Value) (hv : v.isNaN = false) (hw : w.isNaN = false) :
    v.divide w = if w.magQ = 0 then Value.nan else Value.ofQ (v.signedQ / w.signedQ) := by
  cases v with
  | nan => simp [Value.isNaN] at hv
  | num n m =>
    cases w with
    | nan => simp [Value.isNaN] at hw
    | num n2 m2 => rfl

theorem divide_ofQ (x y : ℚ) (hy : y ≠ 0) :
    (Value.ofQ x).divide (Value.ofQ y) = Value.ofQ (x / y) := by
  rw [divide_eval _ _ (isNaN_ofQ x) (isNaN_ofQ y), magQ_ofQ, signedQ_ofQ, signedQ_ofQ,
    if_neg (abs_ne_zero.mpr hy)]

theorem multiply_ofQ_pos (x y : ℚ) (hy : 0 < y) :
    (Value.ofQ x).multiply (Value.ofQ y) = Value.ofQ (x * y) := by
  by_cases hx : x < 0
  · rw [show Value.ofQ x = Value.num true (-x) from by unfold Value.ofQ; rw [if_pos hx],
      show Value.ofQ y = Value.num false y from by
        unfold Value.ofQ; rw [if_neg (not_lt.mpr hy.le)],
      show Value.ofQ (x * y) = Value.num true (-(x * y)) from by
        unfold Value.ofQ; rw [if_pos (mul_neg_of_neg_of_pos hx hy)]]
    show Value.num (xor true false) (-x * y) = Value.num true (-(x * y))
    rw [neg_mul]
    rfl
  · rw [show Value.ofQ x = Value.num false x from by unfold Value.ofQ; rw [if_neg hx],
      show Value.ofQ y = Value.num false y from by
        unfold Value.ofQ; rw [if_neg (not_lt.mpr hy.le)],
      show Value.ofQ (x * y) = Value.num false (x * y) from by
        unfold Value.ofQ; rw [if_neg (not_lt.mpr (mul_nonneg (not_lt.mp hx) hy.le))]]
    rfl

theorem check_iou_ok_of_range (strict : Bool) (x : ℚ)
    (hmin : ¬(|x| < MIN_IOU_VALUE)) (hmax : ¬(|x| > MAX_IOU_VALUE)) :
    exIsOk (Amount._check_limits strict false (Value.ofQ x)) = true := by
  unfold Amount._check_limits
  cases strict
  · rfl
  · rw [isNaN_ofQ]
    cases hz : (Value.ofQ x).isZero with
    | true => simp [hz, exIsOk]
    | false =>
      rw [magQ_ofQ] at *
      simp [hz, magQ_ofQ, hmin, hmax, exIsOk]

/-- C2: decoding a quality of at least 16 hex characters with an issued
(non-native) counter currency: the last 16 hex characters split into the
2-character biased exponent `eb` and the 14-character mantissa `m`; the
value is `m × 10^(eb − 100)`, inverted first when `opts.inverse` is set,
then (unless `opts.xrp_as_drops`) multiplied by `10^6` when the base
currency is native, and finally divided by the base currency's interest
factor at `opts.reference_date` when that date is truthy and the base
currency carries interest.  The range-check hypotheses state that the
stored values pass the strict-mode limit check.  (The claim's clauses for a
native counter — division by `10^6` and rounding to six decimals — are
vacuous under its own non-native-counter hypothesis.) -/
theorem c2_parse_quality_issued (strict : Bool) (q : String) (counter : Currency)
    (i : UInt160) (opts : QualityOpts) (m eb : ℕ)
    (hlen : 16 ≤ q.data.length)
    (hm : parseHexAll (q.data.drop (q.data.length - 14)) = some m)
    (ho : parseIntPrefixHex ((q.data.drop (q.data.length - 16)).take
            ((q.data.length - 14) - (q.data.length - 16))) = some eb)
    (hc : counter.native = false)
    (hinv : opts.inverse = true → m ≠ 0)
    (hfac : qualityInterestCond opts = true →
      (Currency.fromOpt opts.base_currency).get_interest_at (opts.reference_date.getD 0) ≠ 0)
    (hchk1 : exIsOk (Amount._check_limits strict false
              (Value.ofQ (qualityUnitQ m eb opts))) = true)
    (hchk2 : qualityInterestCond opts = true →
      exIsOk (Amount._check_limits strict false
              (Value.ofQ (qualityFinalQ m eb opts))) = true) :
    Amount.parse_quality strict q counter i opts =
      .ok ⟨Value.ofQ (qualityFinalQ m eb opts), false, counter, i⟩ := by
  have hadj1 : (if opts.inverse = true then (Value.ofQ (qualityRawQ m eb)).invert
      else Value.ofQ (qualityRawQ m eb)) = Value.ofQ (qualityInvQ m eb opts) := by
    cases hi : opts.inverse with
    | false => simp [qualityInvQ, hi]
    | true =>
      have hraw : qualityRawQ m eb ≠ 0 := by
        unfold qualityRawQ
        exact mul_ne_zero (Nat.cast_ne_zero.mpr (hinv hi)) (ne_of_gt (pow10_pos _))
      simp only [if_true]
      rw [invert_ofQ _ hraw]
      simp [qualityInvQ, hi]
  have hadj2 : (if (!opts.xrp_as_drops) = true then
      (if ((Currency.fromOpt opts.base_currency).valid
            && (Currency.fromOpt opts.base_currency).native) = true then
        (Value.ofQ (qualityInvQ m eb opts)).multiply (Value.ofQ 1000000)
      else Value.ofQ (qualityInvQ m eb opts))
      else Value.ofQ (qualityInvQ m eb opts)) = Value.ofQ (qualityUnitQ m eb opts) := by
    cases hd : opts.xrp_as_drops with
    | true => simp [qualityUnitQ, qualityUnitCond, hd]
    | false =>
      cases hb : ((Currency.fromOpt opts.base_currency).valid
          && (Currency.fromOpt opts.base_currency).native) with
      | false =>
        simp only [hd, Bool.not_false, if_true, hb, Bool.false_eq_true, if_false]
        have : qualityUnitCond opts = false := by
          unfold qualityUnitCond
          rw [hd, Bool.not_false, Bool.true_and, hb]
        simp [qualityUnitQ, this]
      | true =>
        simp only [hd, Bool.not_false, if_true, hb, if_true]
        rw [multiply_ofQ_pos _ _ (by norm_num)]
        have : qualityUnitCond opts = true := by
          unfold qualityUnitCond
          rw [hd, Bool.not_false, Bool.true_and, hb]
        simp [qualityUnitQ, this]
  have hsv1 : Amount._set_value strict false (Value.ofQ (qualityUnitQ m eb opts)) =
      .ok (Value.ofQ (qualityUnitQ m eb opts)) := by
    rw [set_value_eq_of_check _ _ _ hchk1, negZeroFix_ofQ]
  simp only [Amount.parse_quality, hm, ho, Option.map_some']
  rw [hc]
  simp only [Bool.false_and, Bool.false_eq_true, if_false]
  rw [show Value.ofQ ((m : ℚ) * pow10 ((eb : ℤ) - 100)) = Value.ofQ (qualityRawQ m eb) from rfl]
  rw [hadj1, hadj2, hsv1]
  rw [show (truthyDate opts.reference_date && (Currency.fromOpt opts.base_currency).valid
      && (Currency.fromOpt opts.base_currency).has_interest) = qualityInterestCond opts from rfl]
  cases hint : qualityInterestCond opts with
  | false =>
    simp only [Bool.false_eq_true, if_false]
    rw [show qualityFinalQ m eb opts = qualityUnitQ m eb opts from by
      unfold qualityFinalQ; rw [hint]; rfl]
  | true =>
    simp only [if_true]
    rw [divide_ofQ _ _ (hfac hint)]
    rw [show qualityUnitQ m eb opts /
        (Currency.fromOpt opts.base_currency).get_interest_at (opts.reference_date.getD 0)
        = qualityFinalQ m eb opts from by
      unfold qualityFinalQ; rw [hint]; rfl]
    rw [set_value_eq_of_check _ _ _ (hchk2 hint), negZeroFix_ofQ]

theorem c2_parse_quality_issued_witness :
    Amount.parse_quality true "640000000000000A" usdCurrency issuerOne QualityOpts.noneOpts =
      .ok ⟨Value.ofQ (qualityFinalQ 10 100 QualityOpts.noneOpts), false, usdCurrency,
           issuerOne⟩ := by
  have hunit : qualityUnitQ 10 100 QualityOpts.noneOpts = 10 := by
    have hcond : qualityUnitCond QualityOpts.noneOpts = false := by decide
    unfold qualityUnitQ qualityInvQ qualityRawQ
    rw [hcond]
    norm_num [QualityOpts.noneOpts, pow10]
  have hfinal : qualityFinalQ 10 100 QualityOpts.noneOpts = qualityUnitQ 10 100 QualityOpts.noneOpts := by
    have hcond : qualityInterestCond QualityOpts.noneOpts = false := by decide
    unfold qualityFinalQ
    rw [hcond]
    rfl
  apply c2_parse_quality_issued true "640000000000000A" usdCurrency issuerOne
    QualityOpts.noneOpts 10 100 (by decide) (by decide) (by decide) rfl
    (fun h => absurd h (by decide)) (fun h => absurd h (by decide))
  · rw [hunit]
    apply check_iou_ok_of_range
    · rw [show |(10 : ℚ)| = 10 by norm_num]
      unfold MIN_IOU_VALUE pow10
      rw [if_neg (by norm_num), show ((-(-81 : ℤ)).toNat) = (81 : ℕ) from rfl]
      apply not_lt.mpr
      calc ((10 : ℚ) ^ (81 : ℕ))⁻¹ ≤ 1 := by
            rw [inv_le_one₀ (by positivity)]
            exact one_le_pow₀ (by norm_num)
        _ ≤ 10 := by norm_num
    · rw [show |(10 : ℚ)| = 10 by norm_num]
      unfold MAX_IOU_VALUE
      apply not_lt.mpr
      calc (10 : ℚ) ≤ 10 ^ 80 := by
            apply le_self_pow₀ (by norm_num) (by norm_num)
        _ ≤ 9999999999999999 * 10 ^ 80 := by nlinarith [pow_pos (show (0:ℚ) < 10 by norm_num) 80]
  · intro h
    exact absurd h (by decide)

theorem natDigitsAux_eq (fuel : ℕ) : ∀ n : ℕ, n ≤ fuel → natDigitsAux fuel n = Nat.digits 10 n := by
  induction fuel with
  | zero =>
    intro n hn
    rw [Nat.le_zero.mp hn, Nat.digits_zero]
    rfl
  | succ f ih =>
    intro n hn
    cases n with
    | zero => rw [Nat.digits_zero]; rfl
    | succ k =>
      rw [natDigitsAux, ih ((k + 1) / 10)
          (by have := Nat.div_lt_self (Nat.succ_pos k) (by norm_num : (1:ℕ) < 10); omega),
        Nat.digits_def' (by norm_num : (1:ℕ) < 10) (Nat.succ_pos k)]

theorem natDigits_eq (n : ℕ) : natDigits n = Nat.digits 10 n := natDigitsAux_eq n n le_rfl

theorem natDigits_length_bounds (n : ℕ) (hn : n ≠ 0) :
    10 ^ ((natDigits n).length - 1) ≤ n ∧ n < 10 ^ (natDigits n).length := by
  rw [natDigits_eq, Nat.digits_len 10 n (by norm_num) hn]
  constructor
  · simpa using Nat.pow_log_le_self 10 hn
  · exact Nat.lt_pow_succ_log_self (by norm_num) n

theorem pow10_zpow (z : ℤ) : pow10 z = (10 : ℚ) ^ z := by
  unfold pow10
  split_ifs with h
  · rw [← zpow_natCast, Int.toNat_of_nonneg h]
  · rw [← zpow_natCast, Int.toNat_of_nonneg (by omega), ← zpow_neg, neg_neg]

theorem exp10_unique (x : ℚ) (e f : ℤ) (he1 : (10:ℚ) ^ e ≤ x) (he2 : x < (10:ℚ) ^ (e + 1))
    (hf1 : (10:ℚ) ^ f ≤ x) (hf2 : x < (10:ℚ) ^ (f + 1)) : e = f := by
  by_contra hne
  rcases lt_or_gt_of_ne hne with h | h
  · have : (10:ℚ) ^ (e + 1) ≤ 10 ^ f := zpow_le_zpow_right₀ (by norm_num) (by omega)
    linarith
  · have : (10:ℚ) ^ (f + 1) ≤ 10 ^ e := zpow_le_zpow_right₀ (by norm_num) (by omega)
    linarith

theorem qExp10_bounds (q : ℚ) (hq : q ≠ 0) :
    (10:ℚ) ^ (qExp10 q) ≤ |q| ∧ |q| < (10:ℚ) ^ (qExp10 q + 1) := by
  have ha : q.num.natAbs ≠ 0 := by
    simpa using Rat.num_ne_zero.mpr hq
  have hb : q.den ≠ 0 := q.den_nz
  obtain ⟨hda1, hda2⟩ := natDigits_length_bounds q.num.natAbs ha
  obtain ⟨hdb1, hdb2⟩ := natDigits_length_bounds q.den hb
  set a := q.num.natAbs with hadef
  set b := q.den with hbdef
  set da := (natDigits a).length with hdadef
  set db := (natDigits b).length with hdbdef
  have hda0 : 1 ≤ da := by
    rcases Nat.eq_zero_or_pos da with h0 | h0
    · rw [h0] at hda2; omega
    · exact h0
  have hdb0 : 1 ≤ db := by
    rcases Nat.eq_zero_or_pos db with h0 | h0
    · rw [h0] at hdb2; omega
    · exact h0
  have hbQ : (0:ℚ) < (b : ℚ) := by
    have : 0 < b := Nat.pos_of_ne_zero hb
    exact_mod_cast this
  have habs : |q| = (a : ℚ) / (b : ℚ) := by
    conv_lhs => rw [← Rat.num_div_den q]
    rw [abs_div]
    congr 1
    · rw [hadef, Int.cast_natAbs]
      exact Int.cast_abs.symm
    · exact abs_of_pos hbQ
  have hqe : qExp10 q = if b * 10 ^ da ≤ a * 10 ^ db then (da:ℤ) - (db:ℤ)
      else (da:ℤ) - (db:ℤ) - 1 := rfl
  have hzq : ∀ x y : ℕ, (10:ℚ) ^ ((x:ℤ) - (y:ℤ)) = 10 ^ (x:ℕ) / 10 ^ (y:ℕ) := by
    intro x y
    rw [zpow_sub₀ (by norm_num : (10:ℚ) ≠ 0), zpow_natCast, zpow_natCast]
  rw [hqe]
  split_ifs with hcmp
  · constructor
    · rw [hzq, habs, div_le_div_iff₀ (by positivity) hbQ]
      have : (b:ℚ) * 10 ^ (da:ℕ) ≤ (a:ℚ) * 10 ^ (db:ℕ) := by exact_mod_cast hcmp
      linarith [mul_comm ((10:ℚ) ^ (da:ℕ)) (b:ℚ)]
    · have hexp : (da:ℤ) - (db:ℤ) + 1 = ((da + 1 : ℕ) : ℤ) - (db:ℤ) := by push_cast; ring
      rw [hexp, hzq, habs, div_lt_div_iff₀ hbQ (by positivity)]
      have key : a * 10 ^ db < 10 ^ (da + 1) * b := by
        have h1 : a * 10 ^ db < 10 ^ da * 10 ^ db :=
          (mul_lt_mul_right (pow_pos (by norm_num) db)).mpr hda2
        have h2 : (10:ℕ) ^ da * 10 ^ db = 10 ^ (da + 1) * 10 ^ (db - 1) := by
          rw [← pow_add, ← pow_add]
          congr 1
          omega
        have h3 : (10:ℕ) ^ (da + 1) * 10 ^ (db - 1) ≤ 10 ^ (da + 1) * b :=
          Nat.mul_le_mul_left _ hdb1
        calc a * 10 ^ db < 10 ^ da * 10 ^ db := h1
          _ = 10 ^ (da + 1) * 10 ^ (db - 1) := h2
          _ ≤ 10 ^ (da + 1) * b := h3
      exact_mod_cast key
  · push_neg at hcmp
    constructor
    · have hexp : (da:ℤ) - (db:ℤ) - 1 = ((da - 1 : ℕ) : ℤ) - (db:ℤ) := by
        rw [Nat.cast_sub hda0]
        push_cast
        ring
      rw [hexp, hzq, habs, div_le_div_iff₀ (by positivity) hbQ]
      have key : 10 ^ (da - 1) * b ≤ a * 10 ^ db := by
        have h1 : (10:ℕ) ^ (da - 1) * b ≤ a * b := Nat.mul_le_mul_right b hda1
        have h2 : a * b ≤ a * 10 ^ db := Nat.mul_le_mul_left a hdb2.le
        omega
      exact_mod_cast key
    · have hexp : (da:ℤ) - (db:ℤ) - 1 + 1 = (da:ℤ) - (db:ℤ) := by ring
      rw [hexp, hzq, habs, div_lt_div_iff₀ hbQ (by positivity)]
      have key : a * 10 ^ db < 10 ^ da * b := by
        calc a * 10 ^ db < b * 10 ^ da := hcmp
          _ = 10 ^ da * b := Nat.mul_comm b _
      exact_mod_cast key

theorem qExp10_of_canonical (q : ℚ) (m : ℕ) (o : ℤ)
    (h15 : 10 ^ 15 ≤ m) (h16 : m < 10 ^ 16)
    (habs : |q| = (m : ℚ) * pow10 o) : qExp10 q = o + 15 := by
  have hm0 : (0:ℚ) < (m:ℚ) := by
    have : 0 < m := by omega
    exact_mod_cast this
  have hq : q ≠ 0 := by
    intro h0
    rw [h0, abs_zero] at habs
    have := mul_pos hm0 (pow10_pos o)
    rw [← habs] at this
    exact lt_irrefl 0 this
  obtain ⟨hb1, hb2⟩ := qExp10_bounds q hq
  apply exp10_unique |q| (qExp10 q) (o + 15) hb1 hb2
  · rw [habs, pow10_zpow, show o + 15 = 15 + o by ring, zpow_add₀ (by norm_num : (10:ℚ) ≠ 0)]
    have h15Q : (10:ℚ) ^ (15:ℤ) ≤ (m:ℚ) := by
      rw [show (15:ℤ) = ((15:ℕ):ℤ) from rfl, zpow_natCast]
      exact_mod_cast h15
    have := pow10_pos o
    rw [pow10_zpow] at this
    nlinarith
  · rw [habs, pow10_zpow, show o + 15 + 1 = 16 + o by ring,
      zpow_add₀ (by norm_num : (10:ℚ) ≠ 0)]
    have h16Q : (m:ℚ) < (10:ℚ) ^ (16:ℤ) := by
      rw [show (16:ℤ) = ((16:ℕ):ℤ) from rfl, zpow_natCast]
      exact_mod_cast h16
    have := pow10_pos o
    rw [pow10_zpow] at this
    nlinarith

theorem mant16_eq (q : ℚ) (m : ℕ) (o : ℤ)
    (h15 : 10 ^ 15 ≤ m) (h16 : m < 10 ^ 16)
    (habs : |q| = (m : ℚ) * pow10 o) :
    mant16chars q = decChars m ∧ qExp10 q = o + 15 := by
  have he := qExp10_of_canonical q m o h15 h16 habs
  refine ⟨?_, he⟩
  unfold mant16chars
  rw [he, habs, show (15 : ℤ) - (o + 15) = -o by ring]
  have : (m : ℚ) * pow10 o * pow10 (-o) = (m : ℚ) := by
    rw [pow10_zpow, pow10_zpow, mul_assoc, ← zpow_add₀ (by norm_num : (10:ℚ) ≠ 0)]
    simp
  rw [this]
  rw [show ((m:ℚ)).num = (m:ℤ) from Rat.num_natCast m, Int.natAbs_ofNat]

theorem digitChar_zero_iff (d : ℕ) (hd : d < 10) :
    ((Nat.digitChar d = '0') ↔ d = 0) := by
  interval_cases d <;> simp [Nat.digitChar]

theorem isNZdigit_digitChar (d : ℕ) (hd : d < 10) :
    isNZdigit (Nat.digitChar d) = decide (d ≠ 0) := by
  interval_cases d <;> decide

theorem drop_length_takeWhile (p : Char → Bool) (l : List Char) :
    l.drop (l.takeWhile p).length = l.dropWhile p := by
  induction l with
  | nil => rfl
  | cons x xs ih =>
    by_cases h : p x
    · simp [List.takeWhile_cons, List.dropWhile_cons, h, ih]
    · simp [List.takeWhile_cons, List.dropWhile_cons, h]

theorem take_rev_dropWhile (p : Char → Bool) (l : List Char) :
    l.take (l.length - (l.reverse.takeWhile p).length) = (l.reverse.dropWhile p).reverse := by
  have h1 : l = (l.reverse.dropWhile p).reverse ++ (l.reverse.takeWhile p).reverse := by
    rw [← List.reverse_append, List.takeWhile_append_dropWhile, List.reverse_reverse]
  have hlen : (l.reverse.takeWhile p).length + (l.reverse.dropWhile p).length = l.length := by
    rw [← List.length_append, List.takeWhile_append_dropWhile, List.length_reverse]
  calc l.take (l.length - (l.reverse.takeWhile p).length)
      = ((l.reverse.dropWhile p).reverse ++ (l.reverse.takeWhile p).reverse).take
          ((l.reverse.dropWhile p).reverse.length) := by
        rw [← h1]
        congr 1
        rw [List.length_reverse]
        omega
    _ = (l.reverse.dropWhile p).reverse := List.take_left _ _

/-- Over digit characters, the regex `[1-9].*$` is the removal of leading
zeros, failing when everything is zero. -/
theorem matchNZtoEnd_eq (l : List Char)
    (hd : ∀ c ∈ l, ∃ d, d < 10 ∧ c = Nat.digitChar d) :
    matchNZtoEnd l =
      (if l.dropWhile (fun c => c = '0') = [] then none
       else some (l.dropWhile (fun c => c = '0'))) := by
  induction l with
  | nil => rfl
  | cons x xs ih =>
    obtain ⟨d, hd10, hx⟩ := hd x (List.mem_cons_self x xs)
    by_cases hx0 : x = '0'
    · have hnz : isNZdigit x = false := by
        rw [hx] at hx0 ⊢
        rw [isNZdigit_digitChar d hd10, (digitChar_zero_iff d hd10).mp hx0]
        rfl
      rw [matchNZtoEnd, hnz]
      simp only [Bool.false_eq_true, if_false]
      rw [ih (fun c hc => hd c (List.mem_cons_of_mem x hc))]
      rw [List.dropWhile_cons]
      simp [hx0]
    · have hnz : isNZdigit x = true := by
        rw [hx] at hx0 ⊢
        rw [isNZdigit_digitChar d hd10]
        simp only [decide_eq_true_eq]
        intro h0
        rw [h0] at hx0
        exact hx0 rfl
      rw [matchNZtoEnd, hnz]
      rw [List.dropWhile_cons]
      simp [hx0]

/-- Over digit characters, the regex `[1-9]0*$` succeeds exactly when some
digit is nonzero, matching the last nonzero digit and the zeros after
it. -/
theorem matchNZzeros_eq (l : List Char)
    (hd : ∀ c ∈ l, ∃ d, d < 10 ∧ c = Nat.digitChar d) :
    matchNZzeros l =
      (if l.reverse.dropWhile (fun c => c = '0') = [] then none
       else some (l.drop (l.length -
         ((l.reverse.takeWhile (fun c => c = '0')).length + 1)))) := by
  simp only [matchNZzeros]
  rw [show l.reverse.drop (l.reverse.takeWhile (fun c => c = '0')).length
      = l.reverse.dropWhile (fun c => c = '0') from drop_length_takeWhile _ _]
  cases hdw : l.reverse.dropWhile (fun c => c = '0') with
  | nil => rfl
  | cons c rest =>
    have hc0 : (fun c => decide (c = '0')) c = false := by
      have := List.dropWhile_get_zero_not (fun c => decide (c = '0')) l.reverse
        (by rw [hdw]; simp)
      simpa [hdw] using this
    have hcmem : c ∈ l := by
      have : c ∈ l.reverse.dropWhile (fun c => c = '0') := by
        rw [hdw]; exact List.mem_cons_self c rest
      exact List.mem_reverse.mp ((List.dropWhile_sublist _).mem this)
    obtain ⟨d, hd10, hcd⟩ := hd c hcmem
    have hnz : isNZdigit c = true := by
      rw [hcd] at hc0 ⊢
      rw [isNZdigit_digitChar d hd10]
      simp only [decide_eq_true_eq]
      intro h0
      rw [h0] at hc0
      simp [Nat.digitChar] at hc0
    simp [hnz]

theorem decChars_digits (m : ℕ) :
    ∀ c ∈ decChars m, ∃ d, d < 10 ∧ c = Nat.digitChar d := by
  intro c hc
  unfold decChars at hc
  obtain ⟨d, hdmem, hdc⟩ := List.mem_map.mp hc
  refine ⟨d, ?_, hdc.symm⟩
  have hmem : d ∈ natDigits m := List.mem_reverse.mp hdmem
  rw [natDigits_eq] at hmem
  exact Nat.digits_lt_base (by norm_num) hmem

theorem windowChars_digits (mant : List Char)
    (hm : ∀ c ∈ mant, ∃ d, d < 10 ∧ c = Nat.digitChar d) :
    ∀ c ∈ windowChars mant, ∃ d, d < 10 ∧ c = Nat.digitChar d := by
  intro c hc
  unfold windowChars at hc
  rcases List.mem_append.mp hc with h | h
  · rcases List.mem_append.mp h with h2 | h2
    · exact ⟨0, by norm_num, by rw [List.eq_of_mem_replicate h2]; rfl⟩
    · exact hm c h2
  · exact ⟨0, by norm_num, by rw [List.eq_of_mem_replicate h]; rfl⟩

/-- C7: `to_text` returns `NaN` for an invalid amount; the integer drops
string (the stored value times `10^6`) for a native amount; and for a valid
issued amount in canonical form `± m × 10^o` (16-digit mantissa `m`), the
e-notation string `<m>e<o>` exactly when `o ≠ 0` and `o ∉ [−25, −4]`, and
otherwise the fixed-point decimal assembled from the zero-padded character
window split at `o + 43` (leading zeros stripped from the integer part,
trailing zeros from the fraction). -/
theorem c7_to_text_characterization (a : Amount) :
    (a.is_valid = false → a.to_text = "NaN") ∧
    (∀ k : ℤ, a.is_valid = true → a.is_native = true →
      a.value.signedQ * 1000000 = (k : ℚ) →
      a.to_text = (if k < 0 then "-" else "") ++ Nat.repr k.natAbs) ∧
    (∀ m : ℕ, ∀ o : ℤ, a.is_valid = true → a.is_native = false →
      |a.value.signedQ| = (m : ℚ) * pow10 o → 10 ^ 15 ≤ m → m < 10 ^ 16 →
      ((¬(o = 0) ∧ (o < -25 ∨ o > -4)) →
        a.to_text = (if a.value.isNegative then "-" else "") ++ String.mk (decChars m)
          ++ "e" ++ toString o) ∧
      ((o = 0 ∨ (-25 ≤ o ∧ o ≤ -4)) →
        a.to_text = (if a.value.isNegative then "-" else "")
          ++ windowPre (decChars m) o ++ windowPost (decChars m) o)) := by
  refine ⟨?_, ?_, ?_⟩
  · intro h
    simp only [Amount.to_text, h, Bool.not_false, if_true]
  · intro k hval hnat hk
    simp only [Amount.to_text, hval, hnat, Bool.not_true, Bool.false_eq_true, if_false, if_true]
    unfold qToIntString
    rw [hk, Rat.num_intCast]
  · intro m o hval hnat habs h15 h16
    obtain ⟨hmant, hexp⟩ := mant16_eq a.value.signedQ m o h15 h16 habs
    have hoff : qExp10 a.value.signedQ - 15 = o := by rw [hexp]; ring
    constructor
    · intro hcond
      simp only [Amount.to_text, hval, hnat, Bool.not_true, Bool.false_eq_true, if_false]
      rw [hoff, hmant]
      rw [if_pos (by exact ⟨hcond.1, hcond.2⟩)]
    · intro hcond
      simp only [Amount.to_text, hval, hnat, Bool.not_true, Bool.false_eq_true, if_false]
      rw [hoff, hmant]
      rw [if_neg (by
        rintro ⟨hne, hlt | hgt⟩ <;> rcases hcond with h0 | ⟨hl, hr⟩ <;> omega)]
      rw [show (List.replicate 27 '0' ++ decChars m ++ List.replicate 23 '0')
          = windowChars (decChars m) from rfl]
      have hwd := windowChars_digits (decChars m) (decChars_digits m)
      have hpre : ∀ c ∈ (windowChars (decChars m)).take (o + 43).toNat,
          ∃ d, d < 10 ∧ c = Nat.digitChar d :=
        fun c hc => hwd c (List.mem_of_mem_take hc)
      have hpost : ∀ c ∈ (windowChars (decChars m)).drop (o + 43).toNat,
          ∃ d, d < 10 ∧ c = Nat.digitChar d :=
        fun c hc => hwd c (List.mem_of_mem_drop hc)
      rw [matchNZtoEnd_eq _ hpre, matchNZzeros_eq _ hpost]
      have hX : (match (if ((windowChars (decChars m)).take (o + 43).toNat).dropWhile
            (fun c => c = '0') = [] then none
          else some (((windowChars (decChars m)).take (o + 43).toNat).dropWhile
            (fun c => c = '0'))) with
          | some l => String.mk l
          | none => "0") = windowPre (decChars m) o := by
        unfold windowPre
        by_cases hA : ((windowChars (decChars m)).take (o + 43).toNat).dropWhile
            (fun c => c = '0') = []
        · rw [if_pos hA, if_pos hA]
        · rw [if_neg hA, if_neg hA]
      rw [hX]
      have hY : (match (if ((windowChars (decChars m)).drop (o + 43).toNat).reverse.dropWhile
            (fun c => c = '0') = [] then none
          else some (((windowChars (decChars m)).drop (o + 43).toNat).drop
            (((windowChars (decChars m)).drop (o + 43).toNat).length -
              ((((windowChars (decChars m)).drop (o + 43).toNat).reverse.takeWhile
                (fun c => c = '0')).length + 1)))) with
          | some l => "." ++ String.mk (((windowChars (decChars m)).drop (o + 43).toNat).take
              (1 + ((windowChars (decChars m)).drop (o + 43).toNat).length - l.length))
          | none => "") = windowPost (decChars m) o := by
        set post := (windowChars (decChars m)).drop (o + 43).toNat with hpostdef
        unfold windowPost
        by_cases hB : post.reverse.dropWhile (fun c => c = '0') = []
        · rw [if_pos hB]
          rw [show post.reverse.dropWhile (fun c => c = '0') = ([] : List Char) from hB]
          simp
        · rw [if_neg hB]
          have hrev : (post.reverse.dropWhile (fun c => c = '0')).reverse ≠ [] := by
            intro h0
            exact hB (by simpa using congrArg List.reverse h0)
          rw [if_neg hrev]
          have hlen : (post.reverse.takeWhile (fun c => c = '0')).length +
              (post.reverse.dropWhile (fun c => c = '0')).length = post.length := by
            rw [← List.length_append, List.takeWhile_append_dropWhile, List.length_reverse]
          have hdwpos : 1 ≤ (post.reverse.dropWhile (fun c => c = '0')).length := by
            cases hdw : post.reverse.dropWhile (fun c => c = '0') with
            | nil => exact absurd hdw hB
            | cons c rest => simp
          set zs := (post.reverse.takeWhile (fun c => c = '0')).length with hzsdef
          have hzs : zs + 1 ≤ post.length := by omega
          have hdroplen : (post.drop (post.length - (zs + 1))).length = zs + 1 := by
            rw [List.length_drop]
            omega
          have hiota : (match some (post.drop (post.length - (zs + 1))) with
              | some l => "." ++ String.mk (post.take (1 + post.length - l.length))
              | none => ("" : String)) = "." ++ String.mk (post.take (1 + post.length -
                (post.drop (post.length - (zs + 1))).length)) := rfl
          rw [hiota, hdroplen]
          rw [show 1 + post.length - (zs + 1) = post.length - zs by omega]
          rw [show post.take (post.length - zs) =
            (post.reverse.dropWhile (fun c => c = '0')).reverse from take_rev_dropWhile _ _]
      rw [hY]

theorem c7_to_text_characterization_witness :
    Amount.to_text Amount.new = "NaN" ∧
    Amount.to_text xrpAmount5 = "5000000" ∧
    Amount.to_text iouBig = "1500000000000000e5" ∧
    Amount.to_text iouHalf = "0.5" := by
  refine ⟨?_, ?_, ?_, ?_⟩
  · exact (c7_to_text_characterization Amount.new).1 rfl
  · have h := (c7_to_text_characterization xrpAmount5).2.1 5000000 rfl rfl (by
      show (5 : ℚ) * 1000000 = ((5000000 : ℤ) : ℚ)
      norm_num)
    rw [h]
    decide
  · have hb : |(iouBig.value.signedQ)| = ((1500000000000000 : ℕ) : ℚ) * pow10 5 := by
      rw [show pow10 5 = ((10 : ℚ)) ^ (5 : ℕ) from by
        unfold pow10
        rw [if_pos (by norm_num), show ((5 : ℤ).toNat) = (5 : ℕ) from rfl]]
      show |(1500000000000000 * 10 ^ 5 : ℚ)| = _
      rw [abs_of_nonneg (by positivity)]
      norm_num
    have h := ((c7_to_text_characterization iouBig).2.2 1500000000000000 5 rfl rfl hb
      (by norm_num) (by norm_num)).1 (by norm_num)
    rw [h]
    decide
  · have hb : |(iouHalf.value.signedQ)| = ((5000000000000000 : ℕ) : ℚ) * pow10 (-16) := by
      rw [show pow10 (-16) = (((10 : ℚ)) ^ (16 : ℕ))⁻¹ from by
        unfold pow10
        rw [if_neg (by norm_num), show ((-(-16 : ℤ)).toNat) = (16 : ℕ) from rfl]]
      show |(1 / 2 : ℚ)| = _
      rw [abs_of_nonneg (by norm_num)]
      norm_num
    have h := ((c7_to_text_characterization iouHalf).2.2 5000000000000000 (-16) rfl rfl hb
      (by norm_num) (by norm_num)).2 (by norm_num)
    rw [h]
    decide
